import Mathlib

/-!
Verification of the md2hwpx Markdown-to-HWPX converter
(`src/md2hwpx/MarkdownToHwpx.py`) against its natural-language
specification.

The development is a shallow embedding of the converter's core:

* the template-style parser `_parse_styles_and_init_xml` (outline-level
  detection and validation, normal-style detection and cleanliness check,
  border-fill allocation, id maxima);
* the character-format variant cache `_get_char_pr_id`;
* the tree walker `_process_blocks` with the handlers `_handle_header`,
  `_handle_para`, `_handle_plain`, `_handle_code_block`,
  `_handle_table_elem`, `_handle_bullet_list`, `_handle_ordered_list`,
  `_get_list_para_pr`, `_create_numbering`, and the inline walker
  `_process_inlines_to_elems`;
* the table layout loop of `_handle_table_elem` (occupancy set, next free
  column search, covered-coordinate marking, column widths).

Modelling conventions:

* XML style records are modelled by structures holding exactly the fields
  the converter reads or writes; numeric id attributes (which the source
  handles as canonical decimal strings or ints interchangeably, always via
  `str(...)`/`int(...)`) are modelled as `Nat`.
* Python `set` values for active inline formats are modelled as
  `Finset String`, Python dicts as association lists (first match wins,
  new keys appended), matching dict insertion-order semantics.
* Python exceptions are modelled with `Except`; the time/random derived
  ids of tables, sublists and images are modelled by a deterministic
  counter `id_supply` threaded through the state (no claim concerns the
  id values themselves).
* The recursive tree walk is modelled by a step function `walk_step`
  closed under an explicit fuel wrapper `walk`; every descent into nested
  blocks (table cells, list items) goes through the fuel-indexed callback,
  so the embedding is structurally recursive and fully computable.
  Python's recursion always terminates on finite trees, and all theorems
  hold for every fuel (or are stated about `walk_step` with an arbitrary
  callback, which subsumes every fuel).
* The `Image`, `Note` and `Link` inline kinds (which perform file I/O or
  only wrap runs in field controls) and the metadata/packaging layers are
  outside the scope of the claims and are not embedded; the inline walker
  is embedded on the remaining inline kinds, with an `unknownInline`
  constructor for the fallback branch.
-/

set_option maxRecDepth 4000

/-- Errors raised by `_parse_styles_and_init_xml` during template parsing.
The source raises `ValueError` for these (the repository's richer
`md2hwpx.exceptions.TemplateError` class referenced by its tests is not part
of the `src/` snapshot); the error conditions themselves are embedded
faithfully from the source. -/
inductive TemplateError where
  | outlineStartNonZero (found : Nat)
  | outlineGap (expected : Nat) (found : Nat)
  | dirtyNormalStyle
deriving Repr, DecidableEq

/-- Failures of the tree walk: the `ValueError` raised by `_handle_header`
for a header level missing from the style map, the `ZeroDivisionError`
raised when a cell width is computed with zero declared columns, and
exhaustion of the recursion fuel of the embedding. -/
inductive WalkError where
  | headerLevelNotFound (level : Nat)
  | zeroDivision
  | fuelExhausted
deriving Repr, DecidableEq

/-- Explicit bind for `Except`, used instead of do-notation so that proofs
can rewrite with `wbind_ok`/`wbind_error`. -/
def wbind {ε α β : Type} : Except ε α → (α → Except ε β) → Except ε β
  | .ok a, f => f a
  | .error e, _ => .error e

@[simp] theorem wbind_ok {ε α β : Type} (a : α) (f : α → Except ε β) :
    wbind (ε := ε) (.ok a) f = f a := rfl

@[simp] theorem wbind_error {ε α β : Type} (e : ε) (f : α → Except ε β) :
    wbind (.error e) f = (.error e : Except ε β) := rfl

/-- Association-list lookup, modelling Python dict lookup. -/
def alookup {κ ν : Type} [DecidableEq κ] (l : List (κ × ν)) (k : κ) : Option ν :=
  (l.find? (fun p => p.1 = k)).map (·.2)

/-- Attributes of an `hh:underline` element as set by `_get_char_pr_id`
(and read by the normal-style cleanliness check). -/
structure UnderlineAttrs where
  utype : String
  shape : String
  color : String
deriving Repr, DecidableEq

/-- An `hh:charPr` record, restricted to the fields the converter reads or
writes: the child markers `bold`/`italic`/`supscript`/`subscript`, the
`underline` child with its attributes, and the `textColor` child value. -/
structure CharPr where
  id : Nat
  bold : Bool
  italic : Bool
  underline : Option UnderlineAttrs
  textColor : Option String
  supscript : Bool
  subscript : Bool
deriving Repr, DecidableEq

/-- An `hh:heading` child of a paragraph-format record (attributes
`type`, `idRef`, `level`). -/
structure ParaHeading where
  htype : String
  idRef : Nat
  level : Nat
deriving Repr, DecidableEq

/-- An `hh:paraPr` record, restricted to the fields the converter touches:
the optional `heading` child and the `hc:left` margin / `hc:intent` values
rewritten by `_get_list_para_pr`. -/
structure ParaPr where
  id : Nat
  heading : Option ParaHeading
  marginLeft : Int
  intent : Int
deriving Repr, DecidableEq

/-- An `hh:style` record (attributes `id`, `paraPrIDRef`, `charPrIDRef`). -/
structure StyleRec where
  id : Nat
  paraPrIDRef : Nat
  charPrIDRef : Nat
deriving Repr, DecidableEq

/-- An `hh:numbering` record (its `paraHead` template children are never
read back by the converter and are not modelled). -/
structure NumberingRec where
  id : Nat
  start : Nat
  kind : String
deriving Repr, DecidableEq

/-- Style ids recorded for one `\x7b\x7bNAME\x7d\x7d` placeholder by
`_find_placeholders`. -/
structure PlaceholderInfo where
  charPrIDRef : Nat
  paraPrIDRef : Nat
deriving Repr, DecidableEq

/-- Value of `dynamic_style_map[level]`: the style id, paragraph-format id
and character-format id recorded for one detected outline level. -/
structure LevelInfo where
  styleId : Nat
  paraPrId : Nat
  charPrId : Nat
deriving Repr, DecidableEq

/-- The parts of a template `header.xml` read by
`_parse_styles_and_init_xml`. -/
structure TemplateHeader where
  charPrs : List CharPr
  paraPrs : List ParaPr
  styles : List StyleRec
  numberings : List NumberingRec
  borderFills : List Nat
deriving Repr, DecidableEq

/-- The converter state: the mutable header document (style tables),
caches, maxima and lookup maps built at construction.  Corresponds to the
instance attributes of `MarkdownToHwpx`. -/
structure ConvState where
  char_prs : List CharPr
  para_prs : List ParaPr
  styles : List StyleRec
  numberings : List NumberingRec
  border_fills : List Nat
  char_pr_cache : List ((Nat × Finset String) × Nat)
  max_char_pr_id : Nat
  max_para_pr_id : Nat
  table_border_fill_id : Nat
  dynamic_style_map : List (Nat × LevelInfo)
  outline_style_ids : List (Nat × Nat)
  placeholder_styles : List (String × PlaceholderInfo)
  normal_style_id : Nat
  normal_para_pr_id : Nat
  id_supply : Nat
deriving DecidableEq

/-- Maximum of a list of ids, as computed by the `max id` scans of
`_parse_styles_and_init_xml`, `_ensure_table_border_fill` and
`_create_numbering` (`0` when the list is empty). -/
def find_max_id (ids : List Nat) : Nat := ids.foldl max 0

/-- The `level_to_para_pr` map: for each `hh:paraPr` whose `hh:heading`
child has `type="OUTLINE"`, map its outline level to the paragraph-format
id, keeping the first record found per level (dict first-insertion wins). -/
def level_to_para_pr : List ParaPr → List (Nat × Nat)
  | [] => []
  | p :: rest =>
      match p.heading with
      | some hd =>
          if hd.htype = "OUTLINE" then
            (hd.level, p.id) :: (level_to_para_pr rest).filter (fun q => decide (q.1 ≠ hd.level))
          else level_to_para_pr rest
      | none => level_to_para_pr rest

/-- The `para_pr_to_style_info` lookup: the first `hh:style` whose
`paraPrIDRef` equals the given paragraph-format id. -/
def first_style_for (styles : List StyleRec) (pid : Nat) : Option StyleRec :=
  styles.find? (fun s => s.paraPrIDRef = pid)

/-- Combination step of `_parse_styles_and_init_xml`: for each entry of
`level_to_para_pr` (in insertion order) whose paragraph-format id is
referenced by some style, record the level info. -/
def build_dynamic_map (lp : List (Nat × Nat)) (styles : List StyleRec) : List (Nat × LevelInfo) :=
  lp.filterMap (fun e =>
    match first_style_for styles e.2 with
    | some s => some (e.1, ⟨s.id, e.2, s.charPrIDRef⟩)
    | none => none)

/-- The `detected_levels` list (before sorting). -/
def detected_levels (paraPrs : List ParaPr) (styles : List StyleRec) : List Nat :=
  (build_dynamic_map (level_to_para_pr paraPrs) styles).map (·.1)

/-- The loop `for i in range(len(detected_levels)): if detected_levels[i] != i`
of the outline-level validation, started at index `i`. -/
def check_contiguous : List Nat → Nat → Except TemplateError Unit
  | [], _ => .ok ()
  | l :: rest, i =>
      if l ≠ i then .error (.outlineGap i l) else check_contiguous rest (i + 1)

/-- Outline-level validation of `_parse_styles_and_init_xml`: sort the
detected levels; when nonempty, require the first to be `0` and the sorted
sequence to be `0, 1, 2, …` without gaps. -/
def validate_outline_levels (detected : List Nat) : Except TemplateError Unit :=
  match detected.insertionSort (· ≤ ·) with
  | [] => .ok ()
  | first :: rest =>
      if first ≠ 0 then .error (.outlineStartNonZero first)
      else check_contiguous (first :: rest) 0

/-- The forbidden-property scan of the normal-style cleanliness check:
`bold`, `italic`, `underline` (unless its `type` is `NONE`), `supscript`,
`subscript`. -/
def normal_clean_violations (c : CharPr) : List String :=
  (if c.bold then ["bold"] else [])
    ++ (if c.italic then ["italic"] else [])
    ++ (match c.underline with
        | some u => if u.utype = "NONE" then [] else ["underline"]
        | none => [])
    ++ (if c.supscript then ["supscript"] else [])
    ++ (if c.subscript then ["subscript"] else [])

/-- The normal-style record detected by `_parse_styles_and_init_xml`:
the style with id 0, else the first declared style. -/
def find_normal_style (h : TemplateHeader) : Option StyleRec :=
  match h.styles.find? (fun s => s.id = 0) with
  | some s => some s
  | none => h.styles.head?

/-- The normal-style cleanliness check of `_parse_styles_and_init_xml`:
the character-format record referenced by the normal style (default id 0,
skipped when no such record exists) must carry none of the forbidden
properties. -/
def check_normal_clean (h : TemplateHeader) : Except TemplateError Unit :=
  let ncid := match find_normal_style h with | some s => s.charPrIDRef | none => 0
  match h.charPrs.find? (fun c => c.id = ncid) with
  | some c =>
      if normal_clean_violations c ≠ [] then .error .dirtyNormalStyle else .ok ()
  | none => .ok ()

/-- The converter state built by a successful
`_parse_styles_and_init_xml` run: id maxima, the appended table border
fill, the normal-style ids, the outline-level maps, and empty caches. -/
def build_state (h : TemplateHeader) : ConvState :=
  let tbf := find_max_id h.borderFills + 1
  let dyn := build_dynamic_map (level_to_para_pr h.paraPrs) h.styles
  { char_prs := h.charPrs
    para_prs := h.paraPrs
    styles := h.styles
    numberings := h.numberings
    border_fills := h.borderFills ++ [tbf]
    char_pr_cache := []
    max_char_pr_id := find_max_id (h.charPrs.map (·.id))
    max_para_pr_id := find_max_id (h.paraPrs.map (·.id))
    table_border_fill_id := tbf
    dynamic_style_map := dyn
    outline_style_ids := dyn.map (fun e => (e.1, e.2.styleId))
    placeholder_styles := []
    normal_style_id := match find_normal_style h with | some s => s.id | none => 0
    normal_para_pr_id := match find_normal_style h with | some s => s.paraPrIDRef | none => 1
    id_supply := 0 }

/-- The template parser `_parse_styles_and_init_xml`: compute the id
maxima, append the table border fill, detect the normal style, build the
outline-level maps, validate the detected levels, and validate
normal-style cleanliness.  Errors abort construction before any
conversion output is produced (`convert` is only reachable on a
successfully constructed state). -/
def parse_styles (h : TemplateHeader) : Except TemplateError ConvState :=
  match validate_outline_levels (detected_levels h.paraPrs h.styles) with
  | .error e => .error e
  | .ok _ =>
      match check_normal_clean h with
      | .error e => .error e
      | .ok _ => .ok (build_state h)

/-- Format-specific record mutations of `_get_char_pr_id`: ensure bold and
italic markers, set the underline attributes, set the text colour (forcing
the underline colour to match when an underline child exists), and make
superscript/subscript mutually exclusive (the source tests `SUPERSCRIPT`
first and only `elif` `SUBSCRIPT`). -/
def apply_formats (c : CharPr) (fs : Finset String) : CharPr :=
  let c := if "BOLD" ∈ fs then { c with bold := true } else c
  let c := if "ITALIC" ∈ fs then { c with italic := true } else c
  let c := if "UNDERLINE" ∈ fs then
      { c with underline := some ⟨"BOTTOM", "SOLID", "#000000"⟩ } else c
  let c := if "COLOR_BLUE" ∈ fs then
      let c := { c with textColor := some "#0000FF" }
      match c.underline with
      | some u => { c with underline := some ⟨u.utype, u.shape, "#0000FF"⟩ }
      | none => c
    else c
  if "SUPERSCRIPT" ∈ fs then { c with subscript := false, supscript := true }
  else if "SUBSCRIPT" ∈ fs then { c with supscript := false, subscript := true }
  else c

/-- Steps 2–5 of `_get_char_pr_id` on a cache miss with a found base
record: clone the base record, give the clone the next unused
character-format id, mutate it with `apply_formats`, append it to the
style table, and record the new id in the cache. -/
def alloc_char_pr (st : ConvState) (base_id : Nat) (active_formats : Finset String)
    (base : CharPr) : ConvState × Nat :=
  let new_id := st.max_char_pr_id + 1
  let new_node := { apply_formats base active_formats with id := new_id }
  ({ st with
      max_char_pr_id := new_id
      char_prs := st.char_prs ++ [new_node]
      char_pr_cache := st.char_pr_cache ++ [((base_id, active_formats), new_id)] },
   new_id)

/-- The base-record lookup of `_get_char_pr_id`: the record with the base
id, else the record with id 0. -/
def find_base_char_pr (st : ConvState) (base_id : Nat) : Option CharPr :=
  match st.char_prs.find? (fun c => c.id = base_id) with
  | some c => some c
  | none => st.char_prs.find? (fun c => c.id = 0)

/-- The character-format variant cache `_get_char_pr_id`: an empty format
set returns the base id unchanged; otherwise, a cache hit returns the
previously materialised id; otherwise, the record of the base id (falling
back to id `0`, and returning the base id unchanged when neither exists)
is cloned, given the next unused character-format id, mutated by
`apply_formats`, appended to the style table, and cached. -/
def get_char_pr_id (st : ConvState) (base_id : Nat) (active_formats : Finset String) :
    ConvState × Nat :=
  if active_formats = ∅ then (st, base_id)
  else
    match alookup st.char_pr_cache (base_id, active_formats) with
    | some cid => (st, cid)
    | none =>
        match find_base_char_pr st base_id with
        | none => (st, base_id)
        | some base => alloc_char_pr st base_id active_formats base

/-- XML output nodes as built by the converter through
`xml.etree.ElementTree` (an element with tag, attributes in creation
order, and children; or a text node, standing for an element's text
content). -/
inductive Xml where
  | elem (tag : String) (attrs : List (String × String)) (children : List Xml)
  | text (s : String)
deriving Repr

/-- Top-level attribute lookup on an element. -/
def get_attr (x : Xml) (name : String) : Option String :=
  match x with
  | .elem _ attrs _ => alookup attrs name
  | .text _ => none

/-- Children of an element. -/
def xml_children (x : Xml) : List Xml :=
  match x with
  | .elem _ _ cs => cs
  | .text _ => []

/-- Collect the values of every attribute named `name` in an XML tree
(fuel-indexed for structural recursion; the fuel bounds the tree depth). -/
def collect_attr : Nat → String → Xml → List String
  | 0, _, _ => []
  | _ + 1, _, .text _ => []
  | fuel + 1, name, .elem _ attrs children =>
      (attrs.filterMap fun kv => if kv.1 = name then some kv.2 else none)
        ++ (children.map (collect_attr fuel name)).flatten

/-- The `_create_para_elem` builder: an `hp:p` element with the style,
paragraph-format, page/column break and merged attributes. -/
def make_para (style_id para_pr_id column_break : Nat) (children : List Xml) : Xml :=
  .elem "hp:p"
    [("paraPrIDRef", toString para_pr_id), ("styleIDRef", toString style_id),
     ("pageBreak", "0"), ("columnBreak", toString column_break), ("merged", "0")]
    children

/-- The `_create_text_run_elem` builder: an `hp:run` holding an `hp:t`
text element. -/
def make_text_run (s : String) (char_pr_id : Nat) : Xml :=
  .elem "hp:run" [("charPrIDRef", toString char_pr_id)]
    [.elem "hp:t" [] [.text s]]

/-- The `_create_linebreak_run_elem` builder: an `hp:run` holding an
`hp:t` element that contains an `hp:lineBreak` child. -/
def make_linebreak_run (char_pr_id : Nat) : Xml :=
  .elem "hp:run" [("charPrIDRef", toString char_pr_id)]
    [.elem "hp:t" [] [.elem "hp:lineBreak" [] []]]

/-- Inline nodes of the input document tree handled by
`_process_inlines_to_elems` (the `Link`, `Note` and `Image` kinds, which
involve field controls, block recursion or file I/O, are outside the
claims and not embedded; `unknownInline` stands for the fallback branch). -/
inductive Inline where
  | str (s : String)
  | space
  | strong (c : List Inline)
  | emph (c : List Inline)
  | underline (c : List Inline)
  | superscript (c : List Inline)
  | subscript (c : List Inline)
  | code (txt : String)
  | softBreak
  | lineBreak
  | unknownInline (tag : String)
deriving Repr

/-- Generic state-threading walk over a list, accumulating emitted
values, modelling the `for` loops of the converter that append to a
result list while mutating converter state and short-circuit on a raised
exception. -/
def walkList {α β : Type} (h : ConvState → α → Except WalkError (List β × ConvState)) :
    ConvState → List α → Except WalkError (List β × ConvState)
  | st, [] => .ok ([], st)
  | st, a :: rest =>
      wbind (h st a) (fun p =>
        wbind (walkList h p.2 rest) (fun q => .ok (p.1 ++ q.1, q.2)))

/-- One pass of `_process_inlines_to_elems` with `rec` standing for the
recursive calls on nested inline content: each item emits runs styled by
the current combined character-format id (`get_current_id`, i.e.
`_get_char_pr_id(base, active_formats)`), and the format-adding kinds
recurse with a copy of the active set extended by their flag. -/
def process_inlines_step
    (rec : ConvState → Nat → Finset String → List Inline → Except WalkError (List Xml × ConvState))
    (base : Nat) (fs : Finset String) :
    ConvState → List Inline → Except WalkError (List Xml × ConvState) :=
  walkList (fun st item =>
    match item with
    | .str s =>
        let r := get_char_pr_id st base fs
        .ok ([make_text_run s r.2], r.1)
    | .space =>
        let r := get_char_pr_id st base fs
        .ok ([make_text_run " " r.2], r.1)
    | .strong c => rec st base (insert "BOLD" fs) c
    | .emph c => rec st base (insert "ITALIC" fs) c
    | .underline c => rec st base (insert "UNDERLINE" fs) c
    | .superscript c => rec st base (insert "SUPERSCRIPT" fs) c
    | .subscript c => rec st base (insert "SUBSCRIPT" fs) c
    | .code txt =>
        let r := get_char_pr_id st base fs
        .ok ([make_text_run txt r.2], r.1)
    | .softBreak =>
        let r := get_char_pr_id st base fs
        .ok ([make_text_run " " r.2], r.1)
    | .lineBreak =>
        let r := get_char_pr_id st base fs
        .ok ([make_linebreak_run r.2], r.1)
    | .unknownInline _ => .ok ([], st))

/-- The inline walker `_process_inlines_to_elems`, fuel-indexed: fuel is
consumed when descending into nested inline content only, so flat inline
lists are processed identically at every fuel. -/
def process_inlines : Nat → ConvState → Nat → Finset String → List Inline →
    Except WalkError (List Xml × ConvState)
  | 0, _, _, _, _ => .error .fuelExhausted
  | fuel + 1, st, base, fs, inls =>
      process_inlines_step (fun st2 b2 fs2 c => process_inlines fuel st2 b2 fs2 c) base fs st inls

/-- The leading-`LineBreak` check of `_handle_header`: the column-break
flag and the remaining inlines after stripping one leading line break. -/
def strip_leading_linebreak (inlines : List Inline) : Nat × List Inline :=
  match inlines with
  | .lineBreak :: rest => (1, rest)
  | _ => (0, inlines)

/-- The header handler `_handle_header`: strip one leading `LineBreak`
(setting `columnBreak="1"`), then either use the `H{level}` placeholder
styles, or fall back to the outline-style logic, raising when
`level - 1` is not a detected outline level.  In the fallback the style
id is `outline_style_ids[level]` when present, else the raw `level`, and
the paragraph/character format ids are read from the `hh:style` record
with that id (header levels are 1-based in the input tree, so `level - 1`
in `Nat` matches Python's `level - 1`).  The fallback style id of
`_handle_header`: `outline_style_ids[level]` when present, else the raw
`level`. -/
def header_fallback_style_id (st : ConvState) (level : Nat) : Nat :=
  match alookup st.outline_style_ids level with
  | some sid => sid
  | none => level

/-- The paragraph/character-format id pair read from the `hh:style`
record whose id is the resolved fallback style id (defaulting to the
normal paragraph format and character format 0). -/
def header_fallback_pc (st : ConvState) (level : Nat) : Nat × Nat :=
  match st.styles.find? (fun s => s.id = header_fallback_style_id st level) with
  | some sn => (sn.paraPrIDRef, sn.charPrIDRef)
  | none => (st.normal_para_pr_id, 0)

def handle_header (fuel : Nat) (st : ConvState) (level : Nat) (inlines : List Inline) :
    Except WalkError (Xml × ConvState) :=
  match alookup st.placeholder_styles ("H" ++ toString level) with
  | some props =>
      wbind (process_inlines fuel st props.charPrIDRef ∅ (strip_leading_linebreak inlines).2)
        (fun r =>
          .ok (make_para st.normal_style_id props.paraPrIDRef
                (strip_leading_linebreak inlines).1 r.1, r.2))
  | none =>
      if (alookup st.dynamic_style_map (level - 1)).isNone then
        .error (.headerLevelNotFound level)
      else
        wbind (process_inlines fuel st (header_fallback_pc st level).2 ∅
            (strip_leading_linebreak inlines).2)
          (fun r =>
            .ok (make_para (header_fallback_style_id st level) (header_fallback_pc st level).1
                  (strip_leading_linebreak inlines).1 r.1, r.2))

/-- The character-format id of the normal style record (default 0), as
read by `_handle_para`/`_handle_plain`. -/
def normal_char_pr_of (st : ConvState) : Nat :=
  match st.styles.find? (fun s => s.id = st.normal_style_id) with
  | some sn => sn.charPrIDRef
  | none => 0

/-- The paragraph handler `_handle_para`: the `BODY` placeholder styles
when present, else the normal style (with its character-format id). -/
def handle_para (fuel : Nat) (st : ConvState) (inls : List Inline) :
    Except WalkError (Xml × ConvState) :=
  match alookup st.placeholder_styles "BODY" with
  | some props =>
      wbind (process_inlines fuel st props.charPrIDRef ∅ inls) (fun r =>
        .ok (make_para st.normal_style_id props.paraPrIDRef 0 r.1, r.2))
  | none =>
      wbind (process_inlines fuel st (normal_char_pr_of st) ∅ inls) (fun r =>
        .ok (make_para st.normal_style_id st.normal_para_pr_id 0 r.1, r.2))

/-- The `Plain` handler `_handle_plain`, whose body is identical to
`_handle_para`. -/
def handle_plain (fuel : Nat) (st : ConvState) (inls : List Inline) :
    Except WalkError (Xml × ConvState) :=
  match alookup st.placeholder_styles "BODY" with
  | some props =>
      wbind (process_inlines fuel st props.charPrIDRef ∅ inls) (fun r =>
        .ok (make_para st.normal_style_id props.paraPrIDRef 0 r.1, r.2))
  | none =>
      wbind (process_inlines fuel st (normal_char_pr_of st) ∅ inls) (fun r =>
        .ok (make_para st.normal_style_id st.normal_para_pr_id 0 r.1, r.2))

/-- The code-block handler `_handle_code_block`: one normal-style
paragraph holding a text run with the default character-format id 0. -/
def handle_code_block (st : ConvState) (code : String) : Xml :=
  make_para st.normal_style_id st.normal_para_pr_id 0 [make_text_run code 0]

/-! ### Table layout (`_handle_table_elem`) -/

/-- The coordinates marked occupied for a cell anchored at
`(r, a)` with the given row and column spans:
`\x7b(r + i, a + j) : i < rowspan, j < colspan\x7d`. -/
def covered (r a rowspan colspan : Nat) : Finset (Nat × Nat) :=
  (Finset.range rowspan ×ˢ Finset.range colspan).image (fun p => (r + p.1, a + p.2))

/-- Coordinates covered by a placed cell. -/
structure Placed where
  row_addr : Nat
  col_addr : Nat
  row_span : Nat
  col_span : Nat
deriving Repr, DecidableEq

/-- The occupancy footprint of a placed cell. -/
def Placed.cov (p : Placed) : Finset (Nat × Nat) :=
  covered p.row_addr p.col_addr p.row_span p.col_span

/-- The `while (row, col) in occupied: col += 1` search, with enough fuel
to pass every occupied coordinate of the row. -/
def find_free_col_aux (occ : Finset (Nat × Nat)) (r : Nat) : Nat → Nat → Nat
  | c, 0 => c
  | c, fuel + 1 => if (r, c) ∈ occ then find_free_col_aux occ r (c + 1) fuel else c

/-- The next free column at row `r` starting from column `c`: the first
`c' ≥ c` with `(r, c') ∉ occ` (the occupancy set is finite, so
`occ.card + 1` steps always suffice). -/
def find_free_col (occ : Finset (Nat × Nat)) (r c : Nat) : Nat :=
  find_free_col_aux occ r c (occ.card + 1)

/-- Placement loop for the cells of one row (`rowspan`/`colspan` pairs):
find the next free column, mark the covered coordinates occupied, and
advance the column cursor by the colspan. -/
def place_cells (occ : Finset (Nat × Nat)) (r c : Nat) :
    List (Nat × Nat) → Finset (Nat × Nat) × List Placed
  | [] => (occ, [])
  | cell :: rest =>
      let a := find_free_col occ r c
      let occ2 := occ ∪ covered r a cell.1 cell.2
      let res := place_cells occ2 r (a + cell.2) rest
      (res.1, ⟨r, a, cell.1, cell.2⟩ :: res.2)

/-- Placement loop over the flattened rows, starting each row at column
0 and advancing the row counter. -/
def place_rows (occ : Finset (Nat × Nat)) (r : Nat) :
    List (List (Nat × Nat)) → Finset (Nat × Nat) × List (List Placed)
  | [] => (occ, [])
  | row :: rest =>
      let res1 := place_cells occ r 0 row
      let res2 := place_rows res1.1 (r + 1) rest
      (res2.1, res1.2 :: res2.2)

/-- The complete layout of a table given as rows of
`(rowspan, colspan)` pairs, starting from an empty occupancy set. -/
def layout_table (rows : List (List (Nat × Nat))) : List (List Placed) :=
  (place_rows ∅ 0 rows).2

/-- The fixed total table width of `_handle_table_elem`. -/
def TOTAL_TABLE_WIDTH : Nat := 45000

/-- The declared column widths: each of the `col_cnt` specs receives the
even share `int(TOTAL_TABLE_WIDTH / col_cnt)` (the comprehension iterates
over the specs, so an empty spec list performs no division). -/
def table_col_widths (col_cnt : Nat) : List Nat :=
  List.replicate col_cnt (TOTAL_TABLE_WIDTH / col_cnt)

/-- Sum of the spanned column widths for the given index offsets: a
spanned index inside the declared widths contributes that width, an index
beyond them contributes the even share — computed by a division that
raises `ZeroDivisionError` when `col_cnt` is zero, exactly as in the
source's generator expression. -/
def cell_width_sum (col_widths : List Nat) (col_cnt a : Nat) :
    List Nat → Except WalkError Nat
  | [] => .ok 0
  | i :: rest =>
      let term : Except WalkError Nat :=
        match col_widths[a + i]? with
        | some w => .ok w
        | none =>
            if col_cnt = 0 then .error .zeroDivision
            else .ok (TOTAL_TABLE_WIDTH / col_cnt)
      wbind term (fun w =>
        wbind (cell_width_sum col_widths col_cnt a rest) (fun s => .ok (w + s)))

/-- The emitted width of a cell anchored at column `a` spanning
`colspan` columns. -/
def cell_width (col_widths : List Nat) (col_cnt a colspan : Nat) : Except WalkError Nat :=
  cell_width_sum col_widths col_cnt a (List.range colspan)

/-! ### Block tree and the walker -/

mutual
/-- Block nodes of the input document tree dispatched by
`_process_blocks`.  `unknown` stands for a dict node with an unhandled
`t` tag (the final `else: pass` branch), `invalid` for a non-dict entry
(skipped with a logged error).  A table block carries the declared column
spec count and the head rows, body groups (each with inter-header and
main rows) and foot rows of the Pandoc table content (only the length of
the spec list is ever read). -/
inductive Block where
  | header (level : Nat) (inlines : List Inline)
  | para (inlines : List Inline)
  | plain (inlines : List Inline)
  | codeBlock (code : String)
  | table (col_specs : Nat) (head_rows : List TableRow) (body_groups : List TableBody)
      (foot_rows : List TableRow)
  | bulletList (items : List (List Block))
  | orderedList (start : Nat) (items : List (List Block))
  | unknown (tag : String)
  | invalid

/-- A table row: its list of cells. -/
inductive TableRow where
  | mk (cells : List TableCell)

/-- A table body group: intermediate-header rows and main rows. -/
inductive TableBody where
  | mk (inter_rows : List TableRow) (main_rows : List TableRow)

/-- A table cell: rowspan, colspan and content blocks. -/
inductive TableCell where
  | mk (rowspan colspan : Nat) (blocks : List Block)
end

/-- Cells of a row. -/
def TableRow.cells : TableRow → List TableCell
  | .mk cs => cs

/-- Intermediate-header rows of a body group. -/
def TableBody.inter_rows : TableBody → List TableRow
  | .mk ir _ => ir

/-- Main rows of a body group. -/
def TableBody.main_rows : TableBody → List TableRow
  | .mk _ mr => mr

/-- Rowspan of a cell. -/
def TableCell.rowspan : TableCell → Nat
  | .mk rs _ _ => rs

/-- Colspan of a cell. -/
def TableCell.colspan : TableCell → Nat
  | .mk _ cs _ => cs

/-- Content blocks of a cell. -/
def TableCell.blocks : TableCell → List Block
  | .mk _ _ bs => bs

/-- Row flattening of `_handle_table_elem`: head rows, then for each body
group its inter-header rows followed by its main rows, then foot rows. -/
def table_all_rows (head_rows : List TableRow) (body_groups : List TableBody)
    (foot_rows : List TableRow) : List TableRow :=
  head_rows ++ (body_groups.map (fun g => g.inter_rows ++ g.main_rows)).flatten ++ foot_rows

/-- A recursive unit of work for the walker: processing one block
(`_process_blocks` dispatch) or the item lists of a bullet/ordered list
at a nesting level (`_handle_bullet_list` / `_handle_ordered_list`). -/
inductive WalkTask where
  | block (b : Block)
  | bulletItems (level : Nat) (items : List (List Block))
  | orderedItems (level : Nat) (start : Nat) (items : List (List Block))

/-- The `_create_numbering` allocator: a fresh `hh:numbering` record with
id one above the current maximum, appended to the numberings collection
(its `paraHead` template children are never read back). -/
def create_numbering (st : ConvState) (kind : String) (start_num : Nat) : ConvState × Nat :=
  let max_num_id := find_max_id (st.numberings.map (·.id))
  let new_id := max_num_id + 1
  ({ st with numberings := st.numberings ++ [⟨new_id, start_num, kind⟩] }, new_id)

/-- The `_get_list_para_pr` allocator: clone the paragraph-format record
of `normal_para_pr_id` (returning the base id unchanged when it is
missing), give the clone the next paragraph-format id, point its heading
at the numbering definition, and rewrite its margins — the source first
adds `level * 2000` to each `hc:left` value, sets `hc:intent` to `-2000`,
and then overwrites each `hc:left` value with `(level + 1) * 2000`; all
three writes are kept here in order. -/
def get_list_para_pr (st : ConvState) (num_id level : Nat) : ConvState × Nat :=
  match st.para_prs.find? (fun p => p.id = st.normal_para_pr_id) with
  | none => (st, st.normal_para_pr_id)
  | some base =>
      let new_id := st.max_para_pr_id + 1
      let n1 : ParaPr := { base with id := new_id, heading := some ⟨"NUMBER", num_id, level⟩ }
      let n2 : ParaPr := { n1 with marginLeft := n1.marginLeft + (level : Int) * 2000 }
      let n3 : ParaPr := { n2 with intent := -2000 }
      let n4 : ParaPr := { n3 with marginLeft := ((level : Int) + 1) * 2000 }
      ({ st with max_para_pr_id := new_id, para_prs := st.para_prs ++ [n4] }, new_id)

/-- Draw one generated id (models the time/random id values of
`_handle_table_elem`; the drawn values never influence control flow). -/
def fresh_id (st : ConvState) : ConvState × Nat :=
  ({ st with id_supply := st.id_supply + 1 }, st.id_supply)

/-- One emitted `hp:tc` cell with its `subList` content and address, span,
size and margin properties, as built by the cell loop of
`_handle_table_elem`. -/
def make_cell_elem (border_fill_id sub_id : Nat) (p : Placed) (width : Nat)
    (content : List Xml) : Xml :=
  .elem "hp:tc"
    [("name", ""), ("header", "0"), ("hasMargin", "0"), ("protect", "0"),
     ("editable", "0"), ("dirty", "0"), ("borderFillIDRef", toString border_fill_id)]
    [.elem "hp:subList"
        [("id", toString sub_id), ("textDirection", "HORIZONTAL"), ("lineWrap", "BREAK"),
         ("vertAlign", "TOP"), ("linkListIDRef", "0"), ("linkListNextIDRef", "0"),
         ("textWidth", "0"), ("textHeight", "0"), ("hasTextRef", "0"), ("hasNumRef", "0")]
        content,
     .elem "hp:cellAddr" [("colAddr", toString p.col_addr), ("rowAddr", toString p.row_addr)] [],
     .elem "hp:cellSpan" [("colSpan", toString p.col_span), ("rowSpan", toString p.row_span)] [],
     .elem "hp:cellSz" [("width", toString width), ("height", "1000")] [],
     .elem "hp:cellMargin" [("left", "510"), ("right", "510"), ("top", "141"), ("bottom", "141")] []]

/-- The emitted `hp:tbl` element with its fixed attributes — including the
hardcoded `borderFillIDRef="3"` of the source — and its size, position and
margin children followed by the rows. -/
def make_tbl_elem (tbl_id row_cnt col_cnt : Nat) (trs : List Xml) : Xml :=
  .elem "hp:tbl"
    [("id", toString tbl_id), ("zOrder", "0"), ("numberingType", "TABLE"),
     ("textWrap", "TOP_AND_BOTTOM"), ("textFlow", "BOTH_SIDES"), ("lock", "0"),
     ("dropcapstyle", "None"), ("pageBreak", "CELL"), ("repeatHeader", "1"),
     ("rowCnt", toString row_cnt), ("colCnt", toString col_cnt), ("cellSpacing", "0"),
     ("borderFillIDRef", "3"), ("noAdjust", "0")]
    ([.elem "hp:sz"
        [("width", toString TOTAL_TABLE_WIDTH), ("widthRelTo", "ABSOLUTE"),
         ("height", toString (row_cnt * 1000)), ("heightRelTo", "ABSOLUTE"), ("protect", "0")] [],
      .elem "hp:pos"
        [("treatAsChar", "0"), ("affectLSpacing", "0"), ("flowWithText", "1"),
         ("allowOverlap", "0"), ("holdAnchorAndSO", "0"), ("vertRelTo", "PARA"),
         ("horzRelTo", "COLUMN"), ("vertAlign", "TOP"), ("horzAlign", "LEFT"),
         ("vertOffset", "0"), ("horzOffset", "0")] [],
      .elem "hp:outMargin" [("left", "0"), ("right", "0"), ("top", "0"), ("bottom", "1417")] [],
      .elem "hp:inMargin" [("left", "510"), ("right", "510"), ("top", "141"), ("bottom", "141")] []]
      ++ trs)

/-- One pass of the tree walker with `rec` standing for every recursive
descent into nested blocks.  A processed block yields a list of emitted
entries (one per string appended to the `result` list of
`_process_blocks`, each entry being the top-level elements of that
string): skipped blocks yield no entry, a zero-row table yields one empty
entry (the empty string returned by `_handle_table`), and every other
handler yields one entry.  The `bulletItems`/`orderedItems` tasks model
`_handle_bullet_list`/`_handle_ordered_list`, whose result strings are
flattened into a single entry by the `Block.bulletList`/`Block.orderedList`
dispatch.  `ifuel` is the fuel handed to the inline walker. -/
def walk_step
    (rec : ConvState → WalkTask → Except WalkError (List (List Xml) × ConvState))
    (ifuel : Nat) (st : ConvState) : WalkTask → Except WalkError (List (List Xml) × ConvState)
  | .block (.header level inls) =>
      wbind (handle_header ifuel st level inls) (fun r => .ok ([[r.1]], r.2))
  | .block (.para inls) =>
      wbind (handle_para ifuel st inls) (fun r => .ok ([[r.1]], r.2))
  | .block (.plain inls) =>
      wbind (handle_plain ifuel st inls) (fun r => .ok ([[r.1]], r.2))
  | .block (.codeBlock code) => .ok ([[handle_code_block st code]], st)
  | .block (.table col_specs hr bgs fr) =>
      let all_rows := table_all_rows hr bgs fr
      if all_rows.isEmpty then .ok ([[]], st)
      else
        let row_cnt := all_rows.length
        let col_cnt := col_specs
        let col_widths := table_col_widths col_cnt
        let r0 := fresh_id st
        let spans := all_rows.map (fun row => row.cells.map (fun c => (c.rowspan, c.colspan)))
        let placed := layout_table spans
        wbind (walkList (fun st2 rowp =>
            wbind (walkList (fun st3 cellp =>
                wbind (cell_width col_widths col_cnt cellp.2.col_addr cellp.2.col_span) (fun w =>
                  let r1 := fresh_id st3
                  wbind (walkList (fun st4 b => rec st4 (.block b)) r1.1 cellp.1.blocks)
                    (fun cres =>
                      .ok ([make_cell_elem st3.table_border_fill_id r1.2 cellp.2 w
                              cres.1.flatten], cres.2))))
              st2 (rowp.1.cells.zip rowp.2)) (fun cells_res =>
              .ok ([Xml.elem "hp:tr" [] cells_res.1], cells_res.2)))
          r0.1 (all_rows.zip placed)) (fun trs_res =>
          let tbl := make_tbl_elem r0.2 row_cnt col_cnt trs_res.1
          let run := Xml.elem "hp:run" [("charPrIDRef", "0")] [tbl]
          let para := make_para st.normal_style_id st.normal_para_pr_id 0 [run]
          .ok ([[para]], trs_res.2))
  | .block (.bulletList items) =>
      wbind (rec st (.bulletItems 0 items)) (fun r => .ok ([r.1.flatten], r.2))
  | .block (.orderedList start items) =>
      wbind (rec st (.orderedItems 0 start items)) (fun r => .ok ([r.1.flatten], r.2))
  | .block (.unknown _) => .ok ([], st)
  | .block .invalid => .ok ([], st)
  | .bulletItems level items =>
      let rn := create_numbering st "BULLET" 1
      walkList (fun st2 item =>
        walkList (fun st3 blk =>
          let ra := get_list_para_pr st3 rn.2 level
          match blk with
          | .para inls =>
              wbind (process_inlines ifuel ra.1 0 ∅ inls) (fun r =>
                .ok ([[make_para ra.1.normal_style_id ra.2 0 r.1]], r.2))
          | .plain inls =>
              wbind (process_inlines ifuel ra.1 0 ∅ inls) (fun r =>
                .ok ([[make_para ra.1.normal_style_id ra.2 0 r.1]], r.2))
          | .bulletList inner => rec ra.1 (.bulletItems (level + 1) inner)
          | .orderedList s inner => rec ra.1 (.orderedItems (level + 1) s inner)
          | other => rec ra.1 (.block other)) st2 item) rn.1 items
  | .orderedItems level start items =>
      let rn := create_numbering st "ORDERED" start
      walkList (fun st2 item =>
        walkList (fun st3 blk =>
          let ra := get_list_para_pr st3 rn.2 level
          match blk with
          | .para inls =>
              wbind (process_inlines ifuel ra.1 0 ∅ inls) (fun r =>
                .ok ([[make_para ra.1.normal_style_id ra.2 0 r.1]], r.2))
          | .plain inls =>
              wbind (process_inlines ifuel ra.1 0 ∅ inls) (fun r =>
                .ok ([[make_para ra.1.normal_style_id ra.2 0 r.1]], r.2))
          | .bulletList inner => rec ra.1 (.bulletItems (level + 1) inner)
          | .orderedList s inner => rec ra.1 (.orderedItems (level + 1) s inner)
          | other => rec ra.1 (.block other)) st2 item) rn.1 items

/-- The fuel-indexed tree walker: each descent into nested blocks costs
one unit of fuel; Python's recursion always terminates on finite trees,
so every input is fully processed at every sufficiently large fuel, and
the theorems below hold at every fuel. -/
def walk : Nat → ConvState → WalkTask → Except WalkError (List (List Xml) × ConvState)
  | 0, _, _ => .error .fuelExhausted
  | fuel + 1, st, t => walk_step (walk fuel) (fuel + 1) st t

/-- The block-sequence walk `_process_blocks`: dispatch each block in
order, threading the converter state, collecting the appended result
entries. -/
def process_blocks (fuel : Nat) (st : ConvState) (bs : List Block) :
    Except WalkError (List (List Xml) × ConvState) :=
  walkList (fun s b => walk fuel s (.block b)) st bs

/-! ### Spec-modelled prefix placeholders and counter engine (claim C4)

The prefix-mode placeholder capture and the numbering/counter engine that
the specification describes (spec sections 4.1, 4.3 and 4.5) are not part
of the `src/` snapshot of `MarkdownToHwpx.py`: its `_find_placeholders`
records only the style ids of a marker, and `_handle_header` emits no
prefix runs.  The repository's own tests
(`tests/test_converter.py`, `TestPrefixHeaderAutoNumbering`) exercise the
behaviour against a newer converter module that is absent from `src/`, so
the definitions in this namespace are modelled from the specification
text, not from source code. -/
namespace SpecModel

/-- Modelled from the spec: a text run of the template body or of the
emitted output, reduced to its character-style id and text. -/
structure TRun where
  charPr : Nat
  text : String
deriving Repr, DecidableEq

/-- Modelled from the spec: a paragraph of the template body or of the
emitted output. -/
structure TPara where
  paraPr : Nat
  runs : List TRun
deriving Repr, DecidableEq

/-- Modelled from the spec: the rendering mode of a placeholder (the
table mode is not needed by the claim settled here and is omitted). -/
inductive PhMode where
  | plainMode
  | prefixMode
deriving Repr, DecidableEq

/-- Modelled from the spec: the record kept for one placeholder —
character/paragraph style ids of the marker run, the mode, the captured
literal seed, and the seed run's own character-style id when the seed sat
in a separate preceding run. -/
structure PhStyle where
  charPr : Nat
  paraPr : Nat
  mode : PhMode
  seed : Option String
  seedCharPr : Option Nat
deriving Repr, DecidableEq

/-- Modelled from the spec: scan a character list for the opening
double-brace of a marker, returning the text before it and the
remainder. -/
def take_until_marker : List Char → Option (List Char × List Char)
  | [] => none
  | [_] => none
  | c :: c2 :: rest =>
      if c = Char.ofNat 123 ∧ c2 = Char.ofNat 123 then some ([], rest)
      else (take_until_marker (c2 :: rest)).map (fun p => (c :: p.1, p.2))

/-- Modelled from the spec: read a marker name up to the closing
double-brace. -/
def take_name : List Char → Option (List Char)
  | [] => none
  | [_] => none
  | c :: c2 :: rest =>
      if c = Char.ofNat 125 ∧ c2 = Char.ofNat 125 then some []
      else (take_name (c2 :: rest)).map (fun cs => c :: cs)

/-- Modelled from the spec (4.1, placeholder scan): walk the runs of a
template paragraph; a run whose text holds a literal
`\x7b\x7bNAME\x7d\x7d` marker records the marker's style ids; literal
text inside the same run before the marker, or else the text of the
immediately preceding run, is captured as a prefix seed (the preceding
run's own character-style id is retained when the seed sits in its own
run). -/
def scan_runs (paraPr : Nat) (prev : Option TRun) : List TRun → List (String × PhStyle)
  | [] => []
  | r :: rest =>
      match take_until_marker r.text.data with
      | some (preChars, markerRest) =>
          match take_name markerRest with
          | some nameChars =>
              let pre := String.mk preChars
              let ph : PhStyle :=
                if pre ≠ "" then
                  ⟨r.charPr, paraPr, .prefixMode, some pre, none⟩
                else
                  match prev with
                  | some pr =>
                      if pr.text ≠ "" then
                        ⟨r.charPr, paraPr, .prefixMode, some pr.text, some pr.charPr⟩
                      else ⟨r.charPr, paraPr, .plainMode, none, none⟩
                  | none => ⟨r.charPr, paraPr, .plainMode, none, none⟩
              (String.mk nameChars, ph) :: scan_runs paraPr (some r) rest
          | none => scan_runs paraPr (some r) rest
      | none => scan_runs paraPr (some r) rest

/-- Modelled from the spec: the placeholder scan over the template body
paragraphs. -/
def find_placeholders_spec (paras : List TPara) : List (String × PhStyle) :=
  (paras.map (fun p => scan_runs p.paraPr none p.runs)).flatten

/-- Modelled from the spec (4.3): render a counter value against the
captured seed; a seed whose first character is the Arabic sample `1`
counts in decimal, any other seed is a static symbol returned unchanged
(the Roman and Korean alphabets are not needed by the claim settled
here). -/
def render_seed (seed : String) (n : Nat) : String :=
  match seed.data with
  | [] => seed
  | c :: rest => if c = '1' then toString n ++ String.mk rest else seed

/-- Modelled from the spec (4.3, 4.5): convert one header against the
placeholder table and the counter state (level-keyed counts).  Visiting a
header at level `L` discards the counters of deeper levels (reset on
ancestor), increments the counter at `L`, and in prefix mode emits the
rendered seed as a separate run carrying the seed run's own
character-style id before the heading-text run. -/
def header_step (phs : List (String × PhStyle)) (counters : List (Nat × Nat))
    (level : Nat) (txt : String) : List (Nat × Nat) × TPara :=
  match alookup phs ("H" ++ toString level) with
  | some ph =>
      match ph.mode, ph.seed with
      | .prefixMode, some seed =>
          let counters := counters.filter (fun e => decide (e.1 ≤ level))
          let n := (alookup counters level).getD 0 + 1
          let counters := counters.filter (fun e => decide (e.1 ≠ level)) ++ [(level, n)]
          (counters,
           ⟨ph.paraPr, [⟨ph.seedCharPr.getD ph.charPr, render_seed seed n⟩, ⟨ph.charPr, txt⟩]⟩)
      | _, _ => (counters, ⟨ph.paraPr, [⟨ph.charPr, txt⟩]⟩)
  | none => (counters, ⟨0, [⟨0, txt⟩]⟩)

/-- Modelled from the spec: convert a sequence of headers (level, text)
in document order. -/
def convert_headers (phs : List (String × PhStyle)) (hs : List (Nat × String)) : List TPara :=
  (hs.foldl (fun acc h =>
    let r := header_step phs acc.1 h.1 h.2
    (r.1, acc.2 ++ [r.2])) ([], [])).2

end SpecModel

/-- A minimal converter state (clean character-format record 0 only) used
to instantiate hypothesis-bearing theorems at concrete inputs. -/
def demo_state : ConvState where
  char_prs := [⟨0, false, false, none, none, false, false⟩]
  para_prs := [⟨1, none, 0, 0⟩]
  styles := [⟨0, 1, 0⟩]
  numberings := []
  border_fills := [1, 2]
  char_pr_cache := []
  max_char_pr_id := 0
  max_para_pr_id := 1
  table_border_fill_id := 2
  dynamic_style_map := []
  outline_style_ids := []
  placeholder_styles := []
  normal_style_id := 0
  normal_para_pr_id := 1
  id_supply := 0

/-- A template whose outline levels are 0 and 2 (gapped). -/
def gapped_template : TemplateHeader where
  charPrs := [⟨0, false, false, none, none, false, false⟩]
  paraPrs := [⟨10, some ⟨"OUTLINE", 0, 0⟩, 0, 0⟩, ⟨11, some ⟨"OUTLINE", 0, 2⟩, 0, 0⟩]
  styles := [⟨0, 0, 0⟩, ⟨1, 10, 0⟩, ⟨2, 11, 0⟩]
  numberings := []
  borderFills := []

/-- A template for claim C1: outline level 0 is declared by
paragraph-format 7, referenced by the style record with id 2 (whose
character format is 8); an unrelated style record with id 1 (paragraph
format 5, character format 6) also exists; there are no placeholders. -/
def c1_template : TemplateHeader where
  charPrs := [⟨0, false, false, none, none, false, false⟩,
              ⟨6, false, false, none, none, false, false⟩,
              ⟨8, false, false, none, none, false, false⟩]
  paraPrs := [⟨0, none, 0, 0⟩, ⟨5, none, 0, 0⟩, ⟨7, some ⟨"OUTLINE", 0, 0⟩, 0, 0⟩]
  styles := [⟨0, 0, 0⟩, ⟨1, 5, 6⟩, ⟨2, 7, 8⟩]
  numberings := []
  borderFills := [1]

/-- The parsed converter state for the C1 template. -/
def c1_state : ConvState :=
  match parse_styles c1_template with
  | .ok s => s
  | .error _ => demo_state

/-- A template for claim C6 declaring a single border fill with id 1, so
that after `_ensure_table_border_fill` appends id 2 no border fill with
id 3 exists. -/
def c6_template : TemplateHeader where
  charPrs := [⟨0, false, false, none, none, false, false⟩]
  paraPrs := [⟨1, none, 0, 0⟩]
  styles := [⟨0, 1, 0⟩]
  numberings := []
  borderFills := [1]

/-- The parsed converter state for the C6 template. -/
def c6_state : ConvState :=
  match parse_styles c6_template with
  | .ok s => s
  | .error _ => demo_state

/-- Conversion of a one-cell table against the C6 template. -/
def c6_run : Except WalkError (List (List Xml) × ConvState) :=
  process_blocks 3 c6_state [.table 1 [.mk [.mk 1 1 []]] [] []]

/-- The emitted entries of the C6 conversion. -/
def c6_entries : List (List Xml) :=
  match c6_run with
  | .ok r => r.1
  | .error _ => []

/-- The final converter state of the C6 conversion. -/
def c6_final : ConvState :=
  match c6_run with
  | .ok r => r.2
  | .error _ => c6_state

/-! ### State-preservation infrastructure -/

/-- The fields of the converter state that the tree walk never mutates:
the style records, border fills, lookup maps and normal-style ids. -/
def bf_view (s : ConvState) :=
  (s.border_fills, s.table_border_fill_id, s.styles, s.placeholder_styles,
   s.dynamic_style_map, s.outline_style_ids, s.normal_style_id, s.normal_para_pr_id)

/-- Stability of the walk-invariant fields between two states. -/
def BfStable (s s' : ConvState) : Prop := bf_view s' = bf_view s

/-- The fields of the converter state that inline processing never
mutates (everything except the character-format table, its maximum and
its cache). -/
def inline_view (s : ConvState) :=
  (bf_view s, s.para_prs, s.max_para_pr_id, s.numberings, s.id_supply)

/-- Stability of the inline-invariant fields between two states. -/
def InlinePure (s s' : ConvState) : Prop := inline_view s' = inline_view s

/-- Whether an inline list starts with a `LineBreak`. -/
def is_lb_head : List Inline → Bool
  | .lineBreak :: _ => true
  | _ => false

/-- Number of `LineBreak` nodes anywhere in an inline forest. -/
def inline_lb_count : List Inline → Nat
  | [] => 0
  | .lineBreak :: rest => 1 + inline_lb_count rest
  | .strong c :: rest => inline_lb_count c + inline_lb_count rest
  | .emph c :: rest => inline_lb_count c + inline_lb_count rest
  | .underline c :: rest => inline_lb_count c + inline_lb_count rest
  | .superscript c :: rest => inline_lb_count c + inline_lb_count rest
  | .subscript c :: rest => inline_lb_count c + inline_lb_count rest
  | _ :: rest => inline_lb_count rest

/-- Whether an emitted run is a line-break run (an `hp:run` holding an
`hp:t` that holds an `hp:lineBreak`). -/
def is_linebreak_run : Xml → Bool
  | .elem "hp:run" _ [.elem "hp:t" _ [.elem "hp:lineBreak" _ _]] => true
  | _ => false

/-- Number of line-break runs in an emitted run list. -/
def lb_run_count (xs : List Xml) : Nat := (xs.filter is_linebreak_run).length

/-- Per-item line-break count emitted by the inline walker. -/
def inline_item_lb : Inline → Nat
  | .lineBreak => 1
  | .strong c => inline_lb_count c
  | .emph c => inline_lb_count c
  | .underline c => inline_lb_count c
  | .superscript c => inline_lb_count c
  | .subscript c => inline_lb_count c
  | _ => 0

/-- Converter state with an `H1` placeholder, for the C9 witness. -/
def c9_state : ConvState :=
  { demo_state with placeholder_styles := [("H1", ⟨7, 8⟩)] }

/-- The paragraph emitted for the C9 witness header. -/
def c9_para : Xml := make_para 0 8 1 [make_text_run "T" 7]

/-! ### C3: table-cell occupancy -/

/-- Above-row downward closure of an occupancy set: from row `r` on,
every occupied coordinate sits under an occupied coordinate in each row
down to `r` of the same column.  This is the shape of the occupancy set
`_handle_table_elem` builds when every cell has colspan 1: each cell
contributes a vertical strip starting at the row it was placed in. -/
def VClosed (r : Nat) (occ : Finset (Nat × Nat)) : Prop :=
  ∀ a r1 r2, r ≤ r1 → r1 ≤ r2 → (r2, a) ∈ occ → (r1, a) ∈ occ

/-! ### C10: list-item paragraph-format allocation -/

/-- Whether a block is dispatched to the Para/Plain arm of the list-item
loop of `_handle_bullet_list`/`_handle_ordered_list`. -/
def is_para_plain : Block → Bool
  | .para _ => true
  | .plain _ => true
  | _ => false

/-- The ids of the paragraph-format records, in table order. -/
def pp_ids (s : ConvState) : List Nat := s.para_prs.map (fun p => p.id)

/-- Whether the normal paragraph-format record used as the clone base by
`_get_list_para_pr` is present. -/
def base_present (s : ConvState) : Bool :=
  (s.para_prs.find? (fun p => p.id = s.normal_para_pr_id)).isSome

/-- The `paraPrIDRef` attributes of the paragraphs of each emitted
entry. -/
def para_attr_entries (entries : List (List Xml)) : List (List (Option String)) :=
  entries.map (fun e => e.map (fun x => get_attr x "paraPrIDRef"))

/-- Number of Para/Plain items anywhere in a (possibly nested) list,
descending through nested bullet and ordered lists. -/
def para_plain_count : Nat → List (List Block) → Nat
  | 0, _ => 0
  | fuel + 1, items =>
      (items.map (fun item =>
        (item.map (fun b =>
          match b with
          | .para _ => 1
          | .plain _ => 1
          | .bulletList inner => para_plain_count fuel inner
          | .orderedList _ inner => para_plain_count fuel inner
          | _ => 0)).sum)).sum

/-! ### Helper lemmas -/

theorem alookup_cons {κ ν : Type} [DecidableEq κ] (a : κ × ν) (l : List (κ × ν)) (k : κ) :
    alookup (a :: l) k = if a.1 = k then some a.2 else alookup l k := by
  by_cases h : a.1 = k
  · simp [alookup, List.find?_cons_of_pos, h]
  · simp only [alookup]
    rw [List.find?_cons_of_neg]
    · simp [alookup, h]
    · simp [h]

theorem alookup_append_right {κ ν : Type} [DecidableEq κ] (l : List (κ × ν)) (k : κ) (v : ν)
    (h : alookup l k = none) : alookup (l ++ [(k, v)]) k = some v := by
  induction l with
  | nil => simp [alookup]
  | cons a rest ih =>
      rw [List.cons_append, alookup_cons]
      rw [alookup_cons] at h
      by_cases ha : a.1 = k
      · simp [ha] at h
      · simp only [ha, if_false] at h ⊢
        exact ih h

/-- Unfolding equation for a cache resolution with a nonempty format
set. -/
theorem get_char_pr_id_eq (st : ConvState) (base : Nat) (fs : Finset String)
    (hfs : fs ≠ ∅) :
    get_char_pr_id st base fs =
      match alookup st.char_pr_cache (base, fs) with
      | some cid => (st, cid)
      | none =>
          match find_base_char_pr st base with
          | none => (st, base)
          | some b => alloc_char_pr st base fs b := by
  unfold get_char_pr_id
  rw [if_neg hfs]

/-- Cache-hit case of the resolver. -/
theorem get_char_pr_id_cache_hit {st : ConvState} {b : Nat} {fs : Finset String} {cid : Nat}
    (hfs : fs ≠ ∅) (hc : alookup st.char_pr_cache (b, fs) = some cid) :
    get_char_pr_id st b fs = (st, cid) := by
  rw [get_char_pr_id_eq st b fs hfs, hc]

/-- Cache-miss case with no base record: the base id is returned
unchanged. -/
theorem get_char_pr_id_no_base {st : ConvState} {b : Nat} {fs : Finset String}
    (hfs : fs ≠ ∅) (hc : alookup st.char_pr_cache (b, fs) = none)
    (hb : find_base_char_pr st b = none) :
    get_char_pr_id st b fs = (st, b) := by
  rw [get_char_pr_id_eq st b fs hfs, hc, hb]

/-- Cache-miss case with a base record: a fresh record is allocated. -/
theorem get_char_pr_id_alloc {st : ConvState} {b : Nat} {fs : Finset String} {base : CharPr}
    (hfs : fs ≠ ∅) (hc : alookup st.char_pr_cache (b, fs) = none)
    (hb : find_base_char_pr st b = some base) :
    get_char_pr_id st b fs = alloc_char_pr st b fs base := by
  rw [get_char_pr_id_eq st b fs hfs, hc, hb]

/-- Claim C2: the character-format resolver returns the base id unchanged
(allocating nothing) on an empty format set; its result depends only on
the format set, not on the order in which the set was built; resolving
the same base id and format set a second time returns the same style id
and leaves the state (in particular the style table) unchanged, so at
most one character-format record is ever added for one combination; and
one resolution grows the character-format table by at most one record. -/
theorem c2_char_format_cache_idempotent (st : ConvState) (base : Nat) (l1 l2 : List String) :
    get_char_pr_id st base ∅ = (st, base) ∧
    (l1.toFinset = l2.toFinset →
      get_char_pr_id st base l1.toFinset = get_char_pr_id st base l2.toFinset) ∧
    get_char_pr_id (get_char_pr_id st base l1.toFinset).1 base l1.toFinset =
      get_char_pr_id st base l1.toFinset ∧
    (get_char_pr_id st base l1.toFinset).1.char_prs.length ≤ st.char_prs.length + 1 := by
  refine ⟨by simp [get_char_pr_id], fun h => by rw [h], ?_, ?_⟩
  · by_cases hfs : l1.toFinset = (∅ : Finset String)
    · simp [get_char_pr_id, hfs]
    · rw [get_char_pr_id_eq st base _ hfs]
      rcases hc : alookup st.char_pr_cache (base, l1.toFinset) with _ | cid
      · rcases hb : find_base_char_pr st base with _ | b
        · rw [get_char_pr_id_eq st base _ hfs, hc, hb]
        · rw [get_char_pr_id_eq _ base _ hfs]
          have hc2 : alookup (alloc_char_pr st base l1.toFinset b).1.char_pr_cache
              (base, l1.toFinset) = some (st.max_char_pr_id + 1) := by
            simp only [alloc_char_pr]
            exact alookup_append_right _ _ _ hc
          rw [hc2]
          simp [alloc_char_pr]
      · rw [get_char_pr_id_eq st base _ hfs, hc]
  · by_cases hfs : l1.toFinset = (∅ : Finset String)
    · simp [get_char_pr_id, hfs]
    · rw [get_char_pr_id_eq st base _ hfs]
      rcases alookup st.char_pr_cache (base, l1.toFinset) with _ | cid
      · rcases find_base_char_pr st base with _ | b
        · simp
        · simp [alloc_char_pr]
      · simp

/-- Witness for C2: the `BOLD`+`ITALIC` combination built in either
insertion order resolves to the same style id on a concrete state. -/
theorem c2_witness :
    (["BOLD", "ITALIC"].toFinset : Finset String) = ["ITALIC", "BOLD"].toFinset ∧
    get_char_pr_id demo_state 0 (["BOLD", "ITALIC"].toFinset) =
      get_char_pr_id demo_state 0 (["ITALIC", "BOLD"].toFinset) :=
  ⟨by decide, (c2_char_format_cache_idempotent demo_state 0 ["BOLD", "ITALIC"]
      ["ITALIC", "BOLD"]).2.1 (by decide)⟩

/-- Summing the spanned widths over any index list yields one even share
per index when the declared count is positive. -/
theorem cell_width_sum_const (col_cnt a : Nat) (h : 0 < col_cnt) (l : List Nat) :
    cell_width_sum (table_col_widths col_cnt) col_cnt a l =
      .ok (l.length * (TOTAL_TABLE_WIDTH / col_cnt)) := by
  induction l with
  | nil => simp [cell_width_sum]
  | cons i rest ih =>
      unfold cell_width_sum
      rw [ih]
      simp only [table_col_widths, List.getElem?_replicate]
      by_cases hlt : a + i < col_cnt
      · simp [hlt, Nat.succ_mul, Nat.add_comm]
      · simp only [hlt, if_false, Nat.pos_iff_ne_zero.mp h, if_neg (Nat.pos_iff_ne_zero.mp h)]
        simp [Nat.succ_mul, Nat.add_comm]

/-- Claim C7: with `col_cnt` declared column specs (nonzero) every
declared column receives the even share `TOTAL_TABLE_WIDTH / col_cnt`
(floor division), and the emitted width of a cell anchored at any column
`a` spanning `colspan` columns — the sum of the spanned columns' widths,
an even share substituted for any spanned index at or beyond the declared
count — equals `colspan` times the even share. -/
theorem c7_column_width_distribution (col_cnt a colspan : Nat) (h : 0 < col_cnt) :
    (∀ w ∈ table_col_widths col_cnt, w = TOTAL_TABLE_WIDTH / col_cnt) ∧
    cell_width (table_col_widths col_cnt) col_cnt a colspan =
      .ok (colspan * (TOTAL_TABLE_WIDTH / col_cnt)) := by
  constructor
  · intro w hw
    exact (List.eq_of_mem_replicate hw)
  · unfold cell_width
    rw [cell_width_sum_const col_cnt a h]
    simp

/-- Witness for C7: three declared columns, a cell at column 1 spanning
two columns. -/
theorem c7_witness :
    (∀ w ∈ table_col_widths 3, w = 15000) ∧
    cell_width (table_col_widths 3) 3 1 2 = .ok 30000 := by
  have h := c7_column_width_distribution 3 1 2 (by decide)
  simpa using h

/-- The index loop of the outline-level validation accepts exactly the
run `i, i+1, i+2, …`. -/
theorem check_contiguous_ok_iff (l : List Nat) (i : Nat) :
    check_contiguous l i = .ok () ↔ l = List.range' i l.length := by
  induction l generalizing i with
  | nil => simp [check_contiguous]
  | cons x rest ih =>
      unfold check_contiguous
      simp only [List.length_cons, List.range'_succ, List.cons.injEq]
      by_cases hx : x = i
      · subst hx
        rw [if_neg (by simp)]
        rw [ih (x + 1)]
        simp
      · rw [if_pos hx]
        simp [hx]

/-- Unfolding of the validation when the sorted levels are empty. -/
theorem validate_sort_nil (d : List Nat) (hs : d.insertionSort (· ≤ ·) = []) :
    validate_outline_levels d = .ok () := by
  unfold validate_outline_levels
  rw [hs]

/-- Unfolding of the validation when the sorted levels are nonempty. -/
theorem validate_sort_cons (d : List Nat) (f : Nat) (rest : List Nat)
    (hs : d.insertionSort (· ≤ ·) = f :: rest) :
    validate_outline_levels d =
      if f ≠ 0 then .error (.outlineStartNonZero f)
      else check_contiguous (f :: rest) 0 := by
  unfold validate_outline_levels
  rw [hs]

/-- The outline-level validation succeeds exactly when the detected
levels are a permutation of `0, …, n-1`. -/
theorem validate_ok_iff_perm (d : List Nat) :
    validate_outline_levels d = .ok () ↔ d.Perm (List.range d.length) := by
  rcases hs : d.insertionSort (· ≤ ·) with _ | ⟨f, rest⟩
  · rw [validate_sort_nil d hs]
    have hlen : d.length = 0 := by
      rw [← List.length_insertionSort (· ≤ ·) d, hs]
      rfl
    simp [List.length_eq_zero.mp hlen]
  · rw [validate_sort_cons d f rest hs]
    have hperm : d.Perm (f :: rest) := (hs ▸ List.perm_insertionSort (· ≤ ·) d).symm
    have hsorted : (f :: rest).Sorted (· ≤ ·) := hs ▸ List.sorted_insertionSort (· ≤ ·) d
    have hlen : d.length = rest.length + 1 := by
      rw [← List.length_insertionSort (· ≤ ·) d, hs]
      rfl
    by_cases hf : f = 0
    · subst hf
      rw [if_neg (by simp)]
      rw [check_contiguous_ok_iff]
      constructor
      · intro heq
        refine hperm.trans ?_
        rw [hlen, List.range_eq_range']
        conv_lhs => rw [heq]
        simp
      · intro hp
        have h0 : (0 :: rest) = List.range d.length := by
          refine List.eq_of_perm_of_sorted (hperm.symm.trans hp) hsorted ?_
          exact List.sorted_le_range d.length
        conv_lhs => rw [h0, hlen, List.range_eq_range']
        simp [hlen]
    · simp only [ne_eq, hf, not_false_eq_true, if_true]
      constructor
      · intro hcontra; cases hcontra
      · intro hp
        exfalso
        have heq : (f :: rest) = List.range d.length := by
          refine List.eq_of_perm_of_sorted (hperm.symm.trans hp) hsorted ?_
          exact List.sorted_le_range d.length
        rw [hlen, List.range_eq_range', List.range'_succ] at heq
        exact hf (List.head_eq_of_cons_eq heq)

/-- Claim C5: outline-level validation during template parsing succeeds
exactly when the detected levels (paragraph-format records carrying an
`OUTLINE` heading that some style references) are, in some order, the
contiguous sequence `0 … n-1` — in particular it never raises when they
are wholly absent — and whenever the validation rejects them, template
parsing as a whole fails with that error before any conversion output
can be produced. -/
theorem c5_outline_validation (h : TemplateHeader) :
    (validate_outline_levels (detected_levels h.paraPrs h.styles) = .ok () ↔
      (detected_levels h.paraPrs h.styles).Perm
        (List.range (detected_levels h.paraPrs h.styles).length)) ∧
    (∀ e, validate_outline_levels (detected_levels h.paraPrs h.styles) = .error e →
      parse_styles h = .error e) := by
  constructor
  · exact validate_ok_iff_perm _
  · intro e he
    unfold parse_styles
    rw [he]

/-- Witness for C5: levels 0 and 2 are rejected with a gap error and
template parsing fails with that error. -/
theorem c5_witness :
    validate_outline_levels (detected_levels gapped_template.paraPrs gapped_template.styles) =
      .error (.outlineGap 1 2) ∧
    parse_styles gapped_template = .error (.outlineGap 1 2) :=
  ⟨rfl, (c5_outline_validation gapped_template).2 _ rfl⟩

/-- Claim C4 (spec-modelled): with a template paragraph carrying the
literal numbering seed `1. ` immediately before the `H3` placeholder
marker — in a separate preceding run or at the head of the marker run —
converting three consecutive level-3 headers emits the prefix texts
`1. `, `2. ` and `3. ` in document order, each as a separate run
preceding the heading-text run (carrying the seed run's own
character-style id when the seed had its own run). -/
theorem c4_prefix_numbering (pp cp pcp : Nat) (t1 t2 t3 : String) :
    SpecModel.convert_headers
        (SpecModel.find_placeholders_spec
          [⟨pp, [⟨pcp, "1. "⟩, ⟨cp, "\x7b\x7bH3\x7d\x7d"⟩]⟩])
        [(3, t1), (3, t2), (3, t3)] =
      [⟨pp, [⟨pcp, "1. "⟩, ⟨cp, t1⟩]⟩,
       ⟨pp, [⟨pcp, "2. "⟩, ⟨cp, t2⟩]⟩,
       ⟨pp, [⟨pcp, "3. "⟩, ⟨cp, t3⟩]⟩] ∧
    SpecModel.convert_headers
        (SpecModel.find_placeholders_spec [⟨pp, [⟨cp, "1. \x7b\x7bH3\x7d\x7d"⟩]⟩])
        [(3, t1), (3, t2), (3, t3)] =
      [⟨pp, [⟨cp, "1. "⟩, ⟨cp, t1⟩]⟩,
       ⟨pp, [⟨cp, "2. "⟩, ⟨cp, t2⟩]⟩,
       ⟨pp, [⟨cp, "3. "⟩, ⟨cp, t3⟩]⟩] :=
  ⟨by with_unfolding_all rfl, by with_unfolding_all rfl⟩

/-- Claim C1 (code bug): on the C1 template, outline level 0 maps to
style id 2, paragraph-format id 7 and character-format id 8 — the ids
the claim requires the emitted paragraph and run to carry — yet
converting `Header(level=1, "Title")` emits a paragraph with
`styleIDRef="1"`, `paraPrIDRef="5"` and a run with `charPrIDRef="6"`:
after validating that `level - 1 = 0` is a detected outline level,
`_handle_header` resolves the style through `outline_style_ids[level]`
with the 1-based `level = 1` (falling back to the raw level as style id),
so it reads style record 1 instead of outline level 0's style record. -/
theorem c1_header_ignores_outline_zero_style :
    parse_styles c1_template = .ok c1_state ∧
    alookup c1_state.dynamic_style_map 0 = some ⟨2, 7, 8⟩ ∧
    alookup c1_state.placeholder_styles "H1" = none ∧
    handle_header 1 c1_state 1 [.str "Title"] =
      .ok (make_para 1 5 0 [make_text_run "Title" 6], c1_state) ∧
    ((1 : Nat) ≠ 2 ∧ (5 : Nat) ≠ 7 ∧ (6 : Nat) ≠ 8) :=
  ⟨rfl, by decide, rfl, by with_unfolding_all rfl, by decide⟩

/-- Counterexample to claim C6 as stated: the emitted body markup of a
one-cell table references border-fill id 3 (the hardcoded
`borderFillIDRef="3"` on the `hp:tbl` element), but the final style
table handed to packaging holds only border fills 1 and 2, so a
referenced style id does not exist in the final style table. -/
theorem c6_counterexample :
    "3" ∈ (c6_entries.flatten.map (collect_attr 10 "borderFillIDRef")).flatten ∧
    c6_final.border_fills = [1, 2] ∧
    (3 : Nat) ∉ c6_final.border_fills := by
  refine ⟨?_, ?_, ?_⟩
  · with_unfolding_all decide
  · with_unfolding_all rfl
  · with_unfolding_all decide

theorem bfStable_refl (s : ConvState) : BfStable s s := rfl

theorem bfStable_trans {a b c : ConvState} (h1 : BfStable a b) (h2 : BfStable b c) :
    BfStable a c := by
  unfold BfStable at *
  rw [h2, h1]

theorem inlinePure_refl (s : ConvState) : InlinePure s s := rfl

theorem inlinePure_trans {a b c : ConvState} (h1 : InlinePure a b) (h2 : InlinePure b c) :
    InlinePure a c := by
  unfold InlinePure at *
  rw [h2, h1]

theorem inlinePure_bfStable {a b : ConvState} (h : InlinePure a b) : BfStable a b :=
  congrArg Prod.fst h

/-- Preservation of a reflexive-transitive state relation by a
`walkList` whose handler preserves it. -/
theorem walkList_pres {α β : Type} (P : ConvState → ConvState → Prop)
    (hrefl : ∀ s, P s s) (htrans : ∀ {a b c}, P a b → P b c → P a c)
    (h : ConvState → α → Except WalkError (List β × ConvState))
    (hh : ∀ st a r, h st a = .ok r → P st r.2) :
    ∀ (l : List α) (st : ConvState) (r : List β × ConvState),
      walkList h st l = .ok r → P st r.2 := by
  intro l
  induction l with
  | nil =>
      intro st r hr
      unfold walkList at hr
      cases hr
      exact hrefl st
  | cons a rest ih =>
      intro st r hr
      unfold walkList at hr
      cases he : h st a with
      | error e => rw [he] at hr; simp at hr
      | ok v =>
          rw [he, wbind_ok] at hr
          cases hw : walkList h v.2 rest with
          | error e => rw [hw] at hr; simp at hr
          | ok w =>
              rw [hw, wbind_ok] at hr
              cases hr
              exact htrans (hh st a v he) (ih v.2 w hw)

/-- The character-format cache mutates only the character-format fields
of the state. -/
theorem get_char_pr_id_pure (st : ConvState) (b : Nat) (fs : Finset String) :
    InlinePure st (get_char_pr_id st b fs).1 := by
  by_cases hfs : fs = (∅ : Finset String)
  · simp [get_char_pr_id, hfs, InlinePure]
  · rw [get_char_pr_id_eq st b fs hfs]
    rcases alookup st.char_pr_cache (b, fs) with _ | cid
    · rcases find_base_char_pr st b with _ | base
      · exact inlinePure_refl st
      · exact rfl
    · exact inlinePure_refl st

/-- Inline processing mutates only the character-format fields of the
state. -/
theorem process_inlines_pure :
    ∀ (fuel : Nat) (st : ConvState) (b : Nat) (fs : Finset String) (inls : List Inline)
      (r : List Xml × ConvState),
      process_inlines fuel st b fs inls = .ok r → InlinePure st r.2 := by
  intro fuel
  induction fuel with
  | zero => intro st b fs inls r hr; cases hr
  | succ fuel ih =>
      intro st b fs inls r hr
      unfold process_inlines at hr
      refine walkList_pres InlinePure inlinePure_refl (fun h1 h2 => inlinePure_trans h1 h2) _
        ?_ inls st r hr
      intro st2 item r2 he
      cases item with
      | str s => cases he; exact get_char_pr_id_pure st2 b fs
      | space => cases he; exact get_char_pr_id_pure st2 b fs
      | strong c => exact ih st2 b _ c r2 he
      | emph c => exact ih st2 b _ c r2 he
      | underline c => exact ih st2 b _ c r2 he
      | superscript c => exact ih st2 b _ c r2 he
      | subscript c => exact ih st2 b _ c r2 he
      | code txt => cases he; exact get_char_pr_id_pure st2 b fs
      | softBreak => cases he; exact get_char_pr_id_pure st2 b fs
      | lineBreak => cases he; exact get_char_pr_id_pure st2 b fs
      | unknownInline tag => cases he; exact inlinePure_refl st2

/-- Result-state stability for a `wbind` of an inline-processing call
followed by a state-preserving continuation. -/
theorem bf_of_inline_wbind {fuel b : Nat} {fs : Finset String} {inls : List Inline}
    {st : ConvState} {gamma : Type}
    {f : List Xml × ConvState → Except WalkError (gamma × ConvState)}
    {r : gamma × ConvState}
    (hr : wbind (process_inlines fuel st b fs inls) f = .ok r)
    (hf : ∀ v r2, f v = .ok r2 → r2.2 = v.2) :
    BfStable st r.2 := by
  cases hp : process_inlines fuel st b fs inls with
  | error e => rw [hp] at hr; cases hr
  | ok v =>
      rw [hp, wbind_ok] at hr
      rw [hf v r hr]
      exact inlinePure_bfStable (process_inlines_pure fuel st b fs inls v hp)

/-- The header handler leaves the walk-invariant fields unchanged. -/
theorem handle_header_bf (fuel : Nat) (st : ConvState) (level : Nat) (inls : List Inline)
    (r : Xml × ConvState) (hr : handle_header fuel st level inls = .ok r) :
    BfStable st r.2 := by
  unfold handle_header at hr
  split at hr
  · exact bf_of_inline_wbind hr (fun v r2 h => by cases h; rfl)
  · split at hr
    · cases hr
    · exact bf_of_inline_wbind hr (fun v r2 h => by cases h; rfl)

/-- The paragraph handler leaves the walk-invariant fields unchanged. -/
theorem handle_para_bf (fuel : Nat) (st : ConvState) (inls : List Inline)
    (r : Xml × ConvState) (hr : handle_para fuel st inls = .ok r) :
    BfStable st r.2 := by
  unfold handle_para at hr
  split at hr
  · exact bf_of_inline_wbind hr (fun v r2 h => by cases h; rfl)
  · exact bf_of_inline_wbind hr (fun v r2 h => by cases h; rfl)

/-- The `Plain` handler leaves the walk-invariant fields unchanged. -/
theorem handle_plain_bf (fuel : Nat) (st : ConvState) (inls : List Inline)
    (r : Xml × ConvState) (hr : handle_plain fuel st inls = .ok r) :
    BfStable st r.2 := by
  unfold handle_plain at hr
  split at hr
  · exact bf_of_inline_wbind hr (fun v r2 h => by cases h; rfl)
  · exact bf_of_inline_wbind hr (fun v r2 h => by cases h; rfl)

theorem create_numbering_bf (st : ConvState) (kind : String) (start_num : Nat) :
    BfStable st (create_numbering st kind start_num).1 := rfl

theorem fresh_id_bf (st : ConvState) : BfStable st (fresh_id st).1 := rfl

theorem get_list_para_pr_bf (st : ConvState) (num_id level : Nat) :
    BfStable st (get_list_para_pr st num_id level).1 := by
  unfold get_list_para_pr
  split
  · exact bfStable_refl st
  · rfl

/-- Result states of the tree walk preserve the walk-invariant fields —
in particular the border-fill table and the ensured table border-fill id
are never modified after template parsing. -/
theorem walk_bf_stable :
    ∀ (fuel : Nat) (st : ConvState) (t : WalkTask) (r : List (List Xml) × ConvState),
      walk fuel st t = .ok r → BfStable st r.2 := by
  intro fuel
  induction fuel with
  | zero => intro st t r hr; cases hr
  | succ fuel ih =>
      have hblocks : ∀ (bs : List Block) (st : ConvState) (r : List (List Xml) × ConvState),
          walkList (fun s b => walk fuel s (.block b)) st bs = .ok r → BfStable st r.2 :=
        walkList_pres BfStable bfStable_refl (fun h1 h2 => bfStable_trans h1 h2) _
          (fun st2 b r2 he => ih st2 (.block b) r2 he)
      have hlist : ∀ (level : Nat) (num_id : Nat) (items : List (List Block))
          (st : ConvState) (r : List (List Xml) × ConvState),
          walkList (fun st2 item =>
            walkList (fun st3 blk =>
              let ra := get_list_para_pr st3 num_id level
              match blk with
              | .para inls =>
                  wbind (process_inlines (fuel + 1) ra.1 0 ∅ inls) (fun r =>
                    .ok ([[make_para ra.1.normal_style_id ra.2 0 r.1]], r.2))
              | .plain inls =>
                  wbind (process_inlines (fuel + 1) ra.1 0 ∅ inls) (fun r =>
                    .ok ([[make_para ra.1.normal_style_id ra.2 0 r.1]], r.2))
              | .bulletList inner => walk fuel ra.1 (.bulletItems (level + 1) inner)
              | .orderedList s inner => walk fuel ra.1 (.orderedItems (level + 1) s inner)
              | other => walk fuel ra.1 (.block other)) st2 item) st items = .ok r →
          BfStable st r.2 := by
        intro level num_id items st r hr
        refine walkList_pres BfStable bfStable_refl (fun h1 h2 => bfStable_trans h1 h2) _
          ?_ items st r hr
        intro st2 item r2 he
        refine walkList_pres BfStable bfStable_refl (fun h1 h2 => bfStable_trans h1 h2) _
          ?_ item st2 r2 he
        intro st3 blk r3 he3
        cases blk with
        | para inls =>
            exact bfStable_trans (get_list_para_pr_bf st3 num_id level)
              (bf_of_inline_wbind he3 (fun v r4 h => by cases h; rfl))
        | plain inls =>
            exact bfStable_trans (get_list_para_pr_bf st3 num_id level)
              (bf_of_inline_wbind he3 (fun v r4 h => by cases h; rfl))
        | bulletList inner =>
            exact bfStable_trans (get_list_para_pr_bf st3 num_id level) (ih _ _ _ he3)
        | orderedList s inner =>
            exact bfStable_trans (get_list_para_pr_bf st3 num_id level) (ih _ _ _ he3)
        | header l is => exact bfStable_trans (get_list_para_pr_bf st3 num_id level) (ih _ _ _ he3)
        | codeBlock c => exact bfStable_trans (get_list_para_pr_bf st3 num_id level) (ih _ _ _ he3)
        | table a b c d => exact bfStable_trans (get_list_para_pr_bf st3 num_id level) (ih _ _ _ he3)
        | unknown tag => exact bfStable_trans (get_list_para_pr_bf st3 num_id level) (ih _ _ _ he3)
        | invalid => exact bfStable_trans (get_list_para_pr_bf st3 num_id level) (ih _ _ _ he3)
      intro st t r hr
      rw [show walk (fuel + 1) st t = walk_step (walk fuel) (fuel + 1) st t from rfl] at hr
      cases t with
      | block b =>
          cases b with
          | header level inls =>
              simp only [walk_step] at hr
              cases hh : handle_header (fuel + 1) st level inls with
              | error e => rw [hh] at hr; cases hr
              | ok v => rw [hh, wbind_ok] at hr; cases hr; exact handle_header_bf _ _ _ _ v hh
          | para inls =>
              simp only [walk_step] at hr
              cases hh : handle_para (fuel + 1) st inls with
              | error e => rw [hh] at hr; cases hr
              | ok v => rw [hh, wbind_ok] at hr; cases hr; exact handle_para_bf _ _ _ v hh
          | plain inls =>
              simp only [walk_step] at hr
              cases hh : handle_plain (fuel + 1) st inls with
              | error e => rw [hh] at hr; cases hr
              | ok v => rw [hh, wbind_ok] at hr; cases hr; exact handle_plain_bf _ _ _ v hh
          | codeBlock code =>
              simp only [walk_step] at hr; cases hr; exact bfStable_refl st
          | table col_specs hrw bgs fr =>
              simp only [walk_step] at hr
              split at hr
              · cases hr; exact bfStable_refl st
              · cases hw : walkList _ (fresh_id st).1
                    ((table_all_rows hrw bgs fr).zip
                      (layout_table ((table_all_rows hrw bgs fr).map
                        (fun row => row.cells.map (fun c => (c.rowspan, c.colspan)))))) with
                | error e => rw [hw] at hr; cases hr
                | ok trs =>
                    rw [hw, wbind_ok] at hr
                    cases hr
                    refine bfStable_trans (fresh_id_bf st) ?_
                    refine walkList_pres BfStable bfStable_refl (fun h1 h2 => bfStable_trans h1 h2) _
                      ?_ _ _ trs hw
                    intro st2 rowp r2 he
                    cases hw2 : walkList _ st2 (rowp.1.cells.zip rowp.2) with
                    | error e => rw [hw2] at he; cases he
                    | ok cells =>
                        rw [hw2, wbind_ok] at he
                        cases he
                        refine walkList_pres BfStable bfStable_refl (fun h1 h2 => bfStable_trans h1 h2) _
                          ?_ _ _ cells hw2
                        intro st3 cellp r3 he3
                        cases hcw : cell_width (table_col_widths col_specs) col_specs
                            cellp.2.col_addr cellp.2.col_span with
                        | error e => rw [hcw] at he3; cases he3
                        | ok w =>
                            rw [hcw, wbind_ok] at he3
                            cases hwb : walkList (fun st4 b => walk fuel st4 (.block b))
                                (fresh_id st3).1 cellp.1.blocks with
                            | error e => rw [hwb] at he3; cases he3
                            | ok cres =>
                                rw [hwb, wbind_ok] at he3
                                cases he3
                                exact bfStable_trans (fresh_id_bf st3) (hblocks _ _ cres hwb)
          | bulletList items =>
              simp only [walk_step] at hr
              cases hb : walk fuel st (.bulletItems 0 items) with
              | error e => rw [hb] at hr; cases hr
              | ok v => rw [hb, wbind_ok] at hr; cases hr; exact ih _ _ v hb
          | orderedList start items =>
              simp only [walk_step] at hr
              cases hb : walk fuel st (.orderedItems 0 start items) with
              | error e => rw [hb] at hr; cases hr
              | ok v => rw [hb, wbind_ok] at hr; cases hr; exact ih _ _ v hb
          | unknown tag => simp only [walk_step] at hr; cases hr; exact bfStable_refl st
          | invalid => simp only [walk_step] at hr; cases hr; exact bfStable_refl st
      | bulletItems level items =>
          simp only [walk_step] at hr
          exact bfStable_trans (create_numbering_bf st "BULLET" 1)
            (hlist level (create_numbering st "BULLET" 1).2 items _ r hr)
      | orderedItems level start items =>
          simp only [walk_step] at hr
          exact bfStable_trans (create_numbering_bf st "ORDERED" start)
            (hlist level (create_numbering st "ORDERED" start).2 items _ r hr)

/-- Claim C6 (amended): every character-format id freshly allocated by
the variant cache exists as a record in the mutated style table; template
parsing records the ensured table border fill in the border-fill table;
every emitted table cell references exactly that ensured border-fill id;
and the tree walk never modifies the border-fill table or the ensured id,
so cell references and cache-allocated character ids exist in the final
style table handed to packaging.  (As `c6_counterexample` shows, the
invariant fails for the table element's own hardcoded border-fill
reference 3.) -/
theorem c6_referenced_ids_exist :
    (∀ (st : ConvState) (b : Nat) (fs : Finset String),
      st.char_prs.length < (get_char_pr_id st b fs).1.char_prs.length →
      ∃ c ∈ (get_char_pr_id st b fs).1.char_prs, c.id = (get_char_pr_id st b fs).2) ∧
    (∀ (h : TemplateHeader) (st0 : ConvState), parse_styles h = .ok st0 →
      st0.table_border_fill_id ∈ st0.border_fills) ∧
    (∀ (bf sub : Nat) (p : Placed) (w : Nat) (content : List Xml),
      get_attr (make_cell_elem bf sub p w content) "borderFillIDRef" = some (toString bf)) ∧
    (∀ (fuel : Nat) (st : ConvState) (t : WalkTask) (r : List (List Xml) × ConvState),
      walk fuel st t = .ok r →
      r.2.border_fills = st.border_fills ∧
      r.2.table_border_fill_id = st.table_border_fill_id) := by
  refine ⟨?_, ?_, ?_, ?_⟩
  · intro st b fs hlen
    by_cases hfs : fs = (∅ : Finset String)
    · simp [get_char_pr_id, hfs] at hlen
    · rcases hc : alookup st.char_pr_cache (b, fs) with _ | cid
      · rcases hb : find_base_char_pr st b with _ | base
        · rw [get_char_pr_id_no_base hfs hc hb] at hlen
          simp at hlen
        · rw [get_char_pr_id_alloc hfs hc hb] at hlen ⊢
          refine ⟨{ apply_formats base fs with id := st.max_char_pr_id + 1 }, ?_, rfl⟩
          simp [alloc_char_pr]
      · rw [get_char_pr_id_cache_hit hfs hc] at hlen
        simp at hlen
  · intro h st0 hp
    unfold parse_styles at hp
    split at hp
    · cases hp
    · split at hp
      · cases hp
      · cases hp
        simp [build_state]
  · intro bf sub p w content
    with_unfolding_all rfl
  · intro fuel st t r hr
    have h := walk_bf_stable fuel st t r hr
    exact ⟨congrArg (fun v => v.1) h, congrArg (fun v => v.2.1) h⟩

/-- Witness for C6 (amended) on the C6 template: the ensured border fill
(id 2) is present in the parsed border-fill table, and a concrete emitted
cell element references it. -/
theorem c6_witness :
    c6_state.table_border_fill_id ∈ c6_state.border_fills ∧
    get_attr (make_cell_elem 2 1 ⟨0, 0, 1, 1⟩ 45000 []) "borderFillIDRef" = some "2" :=
  ⟨c6_referenced_ids_exist.2.1 c6_template c6_state rfl,
   by simpa using c6_referenced_ids_exist.2.2.1 2 1 ⟨0, 0, 1, 1⟩ 45000 []⟩

/-- Counting homomorphism over `walkList`: when each item's emission
carries a known count, the whole walk's emission carries the sum. -/
theorem walkList_count {α β : Type} (cnt : List β → Nat)
    (hcnt : ∀ xs ys, cnt (xs ++ ys) = cnt xs + cnt ys) (g : α → Nat)
    (h : ConvState → α → Except WalkError (List β × ConvState))
    (hh : ∀ st a r, h st a = .ok r → cnt r.1 = g a) :
    ∀ (l : List α) (st : ConvState) (r : List β × ConvState),
      walkList h st l = .ok r → cnt r.1 = (l.map g).sum := by
  have hnil : cnt [] = 0 := by
    have h0 := hcnt [] []
    simp only [List.append_nil] at h0
    omega
  intro l
  induction l with
  | nil =>
      intro st r hr
      unfold walkList at hr
      cases hr
      simpa using hnil
  | cons a rest ih =>
      intro st r hr
      unfold walkList at hr
      cases he : h st a with
      | error e => rw [he] at hr; cases hr
      | ok v =>
          rw [he, wbind_ok] at hr
          cases hw : walkList h v.2 rest with
          | error e => rw [hw] at hr; cases hr
          | ok w =>
              rw [hw, wbind_ok] at hr
              cases hr
              simp only [List.map_cons, List.sum_cons]
              rw [hcnt, hh st a v he, ih v.2 w hw]

theorem inline_lb_count_eq_sum (l : List Inline) :
    (l.map inline_item_lb).sum = inline_lb_count l := by
  induction l with
  | nil => simp [inline_lb_count]
  | cons i rest ih =>
      cases i <;> simp [inline_item_lb, inline_lb_count, ih]

/-- The inline walker emits exactly one line-break run per `LineBreak`
node of its input forest. -/
theorem process_inlines_lb :
    ∀ (fuel : Nat) (st : ConvState) (b : Nat) (fs : Finset String) (inls : List Inline)
      (r : List Xml × ConvState),
      process_inlines fuel st b fs inls = .ok r → lb_run_count r.1 = inline_lb_count inls := by
  intro fuel
  induction fuel with
  | zero => intro st b fs inls r hr; cases hr
  | succ fuel ih =>
      intro st b fs inls r hr
      unfold process_inlines at hr
      rw [← inline_lb_count_eq_sum]
      refine walkList_count lb_run_count (by simp [lb_run_count]) inline_item_lb _
        ?_ inls st r hr
      intro st2 item r2 he
      cases item with
      | str s => cases he; rfl
      | space => cases he; rfl
      | strong c => exact ih st2 b _ c r2 he
      | emph c => exact ih st2 b _ c r2 he
      | underline c => exact ih st2 b _ c r2 he
      | superscript c => exact ih st2 b _ c r2 he
      | subscript c => exact ih st2 b _ c r2 he
      | code txt => cases he; rfl
      | softBreak => cases he; rfl
      | lineBreak => cases he; rfl
      | unknownInline tag => cases he; rfl

/-- Shape of a successful header conversion: the emitted element is a
paragraph whose column break is the leading-line-break flag and whose
children are the runs of the inline walk over the stripped inlines. -/
theorem handle_header_shape (fuel : Nat) (st : ConvState) (level : Nat)
    (inlines : List Inline) (x : Xml) (st' : ConvState)
    (hr : handle_header fuel st level inlines = .ok (x, st')) :
    ∃ base v sid pid,
      process_inlines fuel st base ∅ (strip_leading_linebreak inlines).2 = .ok v ∧
      st' = v.2 ∧
      x = make_para sid pid (strip_leading_linebreak inlines).1 v.1 := by
  unfold handle_header at hr
  split at hr
  · cases hp : process_inlines fuel st _ ∅ (strip_leading_linebreak inlines).2 with
    | error e => rw [hp] at hr; cases hr
    | ok v =>
        rw [hp, wbind_ok] at hr
        cases hr
        exact ⟨_, v, _, _, hp, rfl, rfl⟩
  · split at hr
    · cases hr
    · cases hp : process_inlines fuel st _ ∅ (strip_leading_linebreak inlines).2 with
      | error e => rw [hp] at hr; cases hr
      | ok v =>
          rw [hp, wbind_ok] at hr
          cases hr
          exact ⟨_, v, _, _, hp, rfl, rfl⟩

theorem get_attr_make_para_cb (sid pid cb : Nat) (ch : List Xml) :
    get_attr (make_para sid pid cb ch) "columnBreak" = some (toString cb) := by
  with_unfolding_all rfl

/-- Claim C9: a successful header conversion emits a paragraph whose
`columnBreak` attribute is `"1"` exactly when the first inline is a
`LineBreak` (else `"0"`), and whose content holds one line-break run per
`LineBreak` of the remaining inlines — the stripped leading `LineBreak`
itself produces no run. -/
theorem c9_header_column_break (fuel : Nat) (st : ConvState) (level : Nat)
    (inls : List Inline) (x : Xml) (st' : ConvState)
    (hr : handle_header fuel st level inls = .ok (x, st')) :
    get_attr x "columnBreak" = some (if is_lb_head inls then "1" else "0") ∧
    lb_run_count (xml_children x) =
      inline_lb_count (if is_lb_head inls then inls.tail else inls) := by
  obtain ⟨base, v, sid, pid, hp, hst, hx⟩ := handle_header_shape fuel st level inls x st' hr
  subst hx
  constructor
  · rw [get_attr_make_para_cb]
    cases inls with
    | nil => with_unfolding_all rfl
    | cons i rest => cases i <;> with_unfolding_all rfl
  · have hchildren : xml_children (make_para sid pid (strip_leading_linebreak inls).1 v.1) = v.1 := rfl
    rw [hchildren, process_inlines_lb fuel st base ∅ _ v hp]
    cases inls with
    | nil => rfl
    | cons i rest => cases i <;> rfl

/-- Witness for C9: a level-1 header starting with a `LineBreak` emits
`columnBreak="1"` and no line-break run for the stripped leading break. -/
theorem c9_witness :
    handle_header 1 c9_state 1 [.lineBreak, .str "T"] = .ok (c9_para, c9_state) ∧
    get_attr c9_para "columnBreak" = some "1" ∧
    lb_run_count (xml_children c9_para) = 0 := by
  have hc : handle_header 1 c9_state 1 [.lineBreak, .str "T"] = .ok (c9_para, c9_state) := by
    with_unfolding_all rfl
  have h := c9_header_column_break 1 c9_state 1 [.lineBreak, .str "T"] c9_para c9_state hc
  refine ⟨hc, ?_, ?_⟩
  · simpa using h.1
  · simpa [is_lb_head, inline_lb_count] using h.2

/-- Membership in the covered-coordinate set. -/
theorem mem_covered (r a rs cs : Nat) (x : Nat × Nat) :
    x ∈ covered r a rs cs ↔ ∃ i < rs, ∃ j < cs, x = (r + i, a + j) := by
  simp only [covered, Finset.mem_image, Finset.mem_product, Finset.mem_range, Prod.exists]
  constructor
  · rintro ⟨i, j, ⟨hi, hj⟩, hx⟩
    exact ⟨i, hi, j, hj, hx.symm⟩
  · rintro ⟨i, hi, j, hj, hx⟩
    exact ⟨i, j, ⟨hi, hj⟩, hx.symm⟩

/-- The column search always lands on a coordinate outside the occupancy
set, given fuel exceeding the number of occupied coordinates of the row
at or beyond the start column. -/
theorem find_free_col_aux_free (occ : Finset (Nat × Nat)) (r : Nat) :
    ∀ fuel c, (occ.filter (fun x => x.1 = r ∧ c ≤ x.2)).card < fuel →
      (r, find_free_col_aux occ r c fuel) ∉ occ := by
  intro fuel
  induction fuel with
  | zero => intro c h; omega
  | succ n ih =>
      intro c h
      rw [find_free_col_aux]
      by_cases hc : (r, c) ∈ occ
      · rw [if_pos hc]
        apply ih
        have hmem : (r, c) ∈ occ.filter (fun x => x.1 = r ∧ c ≤ x.2) := by
          simp [Finset.mem_filter, hc]
        have hsub : occ.filter (fun x => x.1 = r ∧ c + 1 ≤ x.2) =
            (occ.filter (fun x => x.1 = r ∧ c ≤ x.2)).erase (r, c) := by
          ext x
          simp only [Finset.mem_filter, Finset.mem_erase]
          constructor
          · rintro ⟨hx, hr, hcx⟩
            refine ⟨?_, hx, hr, by omega⟩
            intro he
            rw [he] at hcx
            omega
          · rintro ⟨hne, hx, hr, hcx⟩
            refine ⟨hx, hr, ?_⟩
            rcases Nat.eq_or_lt_of_le hcx with heq | hlt
            · exfalso
              apply hne
              have : x = (x.1, x.2) := rfl
              rw [this, hr, ← heq]
            · omega
        have hpos : 0 < (occ.filter (fun x => x.1 = r ∧ c ≤ x.2)).card :=
          Finset.card_pos.mpr ⟨(r, c), hmem⟩
        rw [hsub, Finset.card_erase_of_mem hmem]
        omega
      · rw [if_neg hc]
        exact hc

/-- `find_free_col` returns a free coordinate: the filtered card is at
most the full card, which is below the supplied fuel. -/
theorem find_free_col_free (occ : Finset (Nat × Nat)) (r c : Nat) :
    (r, find_free_col occ r c) ∉ occ := by
  apply find_free_col_aux_free
  have := Finset.card_filter_le occ (fun x => x.1 = r ∧ c ≤ x.2)
  omega

/-- Downward closure is monotone in the base row. -/
theorem VClosed_mono (r r2 : Nat) (occ : Finset (Nat × Nat)) (h : VClosed r occ)
    (hr : r ≤ r2) : VClosed r2 occ := by
  intro a x y hx hy hmem
  exact h a x y (le_trans hr hx) hy hmem

/-- A colspan-1 strip anchored at a free coordinate of row `r` is
disjoint from a row-`r` downward-closed occupancy set. -/
theorem strip_disjoint (r a rs : Nat) (occ : Finset (Nat × Nat))
    (hv : VClosed r occ) (hfree : (r, a) ∉ occ) :
    Disjoint (covered r a rs 1) occ := by
  rw [Finset.disjoint_left]
  intro x hx hxo
  rw [mem_covered] at hx
  obtain ⟨i, hi, j, hj, hxe⟩ := hx
  have hj0 : j = 0 := by omega
  subst hj0
  subst hxe
  exact hfree (hv a r (r + i) le_rfl (by omega) hxo)

/-- Adding a colspan-1 strip anchored in row `r` preserves row-`r`
downward closure. -/
theorem VClosed_union_strip (r a rs : Nat) (occ : Finset (Nat × Nat))
    (hv : VClosed r occ) : VClosed r (occ ∪ covered r a rs 1) := by
  intro b r1 r2 h1 h2 hmem
  rw [Finset.mem_union] at hmem ⊢
  rcases hmem with hmem | hmem
  · exact Or.inl (hv b r1 r2 h1 h2 hmem)
  · right
    rw [mem_covered] at hmem ⊢
    obtain ⟨i, hi, j, hj, hxe⟩ := hmem
    have hj0 : j = 0 := by omega
    subst hj0
    have hr2 : r2 = r + i := congrArg Prod.fst hxe
    have hb : b = a + 0 := congrArg Prod.snd hxe
    refine ⟨r1 - r, by omega, 0, by omega, ?_⟩
    have hre : r + (r1 - r) = r1 := by omega
    rw [hre, hb]

/-- Placement invariant for one row of colspan-1 cells: the occupancy
set only grows, stays downward closed, absorbs every placed footprint,
every placed footprint avoids the incoming occupancy, and the placed
footprints are pairwise disjoint. -/
theorem place_cells_inv (r : Nat) (cells : List (Nat × Nat))
    (hcs : ∀ cl ∈ cells, cl.2 = 1) :
    ∀ occ c, VClosed r occ →
      occ ⊆ (place_cells occ r c cells).1 ∧
      VClosed r (place_cells occ r c cells).1 ∧
      (∀ p ∈ (place_cells occ r c cells).2,
        Placed.cov p ⊆ (place_cells occ r c cells).1) ∧
      (∀ p ∈ (place_cells occ r c cells).2, Disjoint (Placed.cov p) occ) ∧
      List.Pairwise (fun p q => Disjoint (Placed.cov p) (Placed.cov q))
        (place_cells occ r c cells).2 := by
  induction cells with
  | nil =>
      intro occ c hv
      simp [place_cells, hv]
  | cons cell rest ih =>
      intro occ c hv
      have hc1 : cell.2 = 1 := hcs cell (List.mem_cons_self ..)
      have hrest : ∀ cl ∈ rest, cl.2 = 1 := fun cl h => hcs cl (List.mem_cons_of_mem _ h)
      simp only [place_cells]
      set a := find_free_col occ r c with ha
      have hfree : (r, a) ∉ occ := find_free_col_free occ r c
      set occ2 := occ ∪ covered r a cell.1 cell.2 with hocc2
      have hdisj : Disjoint (covered r a cell.1 cell.2) occ := by
        rw [hc1]
        exact strip_disjoint r a cell.1 occ hv hfree
      have hv2 : VClosed r occ2 := by
        rw [hocc2, hc1]
        exact VClosed_union_strip r a cell.1 occ hv
      obtain ⟨hsub, hvr, hcov, hdis, hpw⟩ := ih hrest occ2 (a + cell.2) hv2
      have hmono : occ ⊆ occ2 := Finset.subset_union_left
      refine ⟨le_trans hmono hsub, hvr, ?_, ?_, ?_⟩
      · intro p hp
        rcases List.mem_cons.mp hp with hp | hp
        · subst hp
          exact le_trans (le_trans Finset.subset_union_right hsub)
            (le_refl (place_cells occ2 r (a + cell.2) rest).1)
        · exact hcov p hp
      · intro p hp
        rcases List.mem_cons.mp hp with hp | hp
        · subst hp
          exact hdisj
        · exact Finset.disjoint_of_subset_right hmono (hdis p hp)
      · refine List.pairwise_cons.mpr ⟨?_, hpw⟩
        intro q hq
        have hdq := (hdis q hq).symm
        show Disjoint (covered r a cell.1 cell.2) (Placed.cov q)
        exact Finset.disjoint_of_subset_left Finset.subset_union_right hdq

/-- Placement invariant over whole rows of colspan-1 cells: the flattened
placed footprints avoid the incoming occupancy and are pairwise
disjoint. -/
theorem place_rows_inv (rows : List (List (Nat × Nat)))
    (hcs : ∀ row ∈ rows, ∀ cl ∈ row, cl.2 = 1) :
    ∀ occ r, VClosed r occ →
      occ ⊆ (place_rows occ r rows).1 ∧
      (∀ p ∈ (place_rows occ r rows).2.flatten,
        Placed.cov p ⊆ (place_rows occ r rows).1) ∧
      (∀ p ∈ (place_rows occ r rows).2.flatten, Disjoint (Placed.cov p) occ) ∧
      List.Pairwise (fun p q => Disjoint (Placed.cov p) (Placed.cov q))
        (place_rows occ r rows).2.flatten := by
  induction rows with
  | nil =>
      intro occ r hv
      simp [place_rows]
  | cons row rest ih =>
      intro occ r hv
      have hrow : ∀ cl ∈ row, cl.2 = 1 := hcs row (List.mem_cons_self ..)
      have hrest : ∀ rw ∈ rest, ∀ cl ∈ rw, cl.2 = 1 :=
        fun rw h => hcs rw (List.mem_cons_of_mem _ h)
      simp only [place_rows]
      obtain ⟨hsub1, hv1, hcov1, hdis1, hpw1⟩ := place_cells_inv r row hrow occ 0 hv
      set occ1 := (place_cells occ r 0 row).1 with hocc1
      have hv1r : VClosed (r + 1) occ1 := VClosed_mono r (r + 1) occ1 hv1 (by omega)
      obtain ⟨hsub2, hcov2, hdis2, hpw2⟩ := ih hrest occ1 (r + 1) hv1r
      simp only [List.flatten_cons]
      refine ⟨le_trans hsub1 hsub2, ?_, ?_, ?_⟩
      · intro p hp
        rcases List.mem_append.mp hp with hp | hp
        · exact le_trans (le_trans (hcov1 p hp) hsub2)
            (le_refl (place_rows occ1 (r + 1) rest).1)
        · exact hcov2 p hp
      · intro p hp
        rcases List.mem_append.mp hp with hp | hp
        · exact hdis1 p hp
        · exact Finset.disjoint_of_subset_right hsub1 (hdis2 p hp)
      · rw [List.pairwise_append]
        refine ⟨hpw1, hpw2, ?_⟩
        intro p hp q hq
        exact Finset.disjoint_of_subset_left (hcov1 p hp) (hdis2 q hq).symm

/-- Counterexample to the unrestricted occupancy claim: in the table
with span rows `[[(1,1), (2,1)], [(1,2)]]` (a rowspan-2 cell in row 0,
then a colspan-2 cell in row 1) the column search checks only the anchor
coordinate, so the colspan-2 cell of row 1 is anchored at column 0 and
spreads over `(1,1)`, which the rowspan-2 cell of row 0 already
occupies. -/
theorem c3_counterexample :
    (⟨0, 1, 2, 1⟩ : Placed) ∈ (layout_table [[(1,1), (2,1)], [(1,2)]]).flatten ∧
    (⟨1, 0, 1, 2⟩ : Placed) ∈ (layout_table [[(1,1), (2,1)], [(1,2)]]).flatten ∧
    (⟨0, 1, 2, 1⟩ : Placed) ≠ (⟨1, 0, 1, 2⟩ : Placed) ∧
    (1, 1) ∈ Placed.cov ⟨0, 1, 2, 1⟩ ∧ (1, 1) ∈ Placed.cov ⟨1, 0, 1, 2⟩ := by
  refine ⟨?_, ?_, ?_, ?_, ?_⟩ <;> with_unfolding_all decide

/-- Claim C3 (amended): for tables all of whose cells have colspan 1,
the layout places each cell at the next free column of its row and no
two laid-out cells claim a common `(row, column)` coordinate.  (With
colspans above 1 the search checks only the anchor coordinate, and a
wide cell can spread over coordinates occupied by an earlier row's
rowspan.) -/
theorem c3_no_overlap (rows : List (List (Nat × Nat)))
    (hcs : ∀ row ∈ rows, ∀ cl ∈ row, cl.2 = 1) :
    List.Pairwise (fun p q => Disjoint (Placed.cov p) (Placed.cov q))
      (layout_table rows).flatten := by
  have h := place_rows_inv rows hcs ∅ 0 (by intro a r1 r2 _ _ hm; simp at hm)
  exact h.2.2.2

/-- Witness for C3 (amended): the colspan-1 table with a rowspan-2 cell
has pairwise disjoint cell footprints. -/
theorem c3_witness :
    (∀ row ∈ [[(2,1), (1,1)], [(1,1)]], ∀ cl ∈ row, (cl : Nat × Nat).2 = 1) ∧
    List.Pairwise (fun p q => Disjoint (Placed.cov p) (Placed.cov q))
      (layout_table [[(2,1), (1,1)], [(1,1)]]).flatten :=
  ⟨by decide, c3_no_overlap [[(2,1), (1,1)], [(1,1)]] (by decide)⟩

/-! ### C8: degenerate blocks are skipped and the walk continues -/

/-- A list entry whose handler succeeds while emitting nothing and
leaving the state unchanged can be removed from the walked list without
changing the outcome: the remaining entries are processed exactly as
without it. -/
theorem walkList_skip {α β : Type}
    (f : ConvState → α → Except WalkError (List β × ConvState)) (b : α)
    (hb : ∀ s, f s b = .ok ([], s)) :
    ∀ bs1 st bs2, walkList f st (bs1 ++ b :: bs2) = walkList f st (bs1 ++ bs2) := by
  intro bs1
  induction bs1 with
  | nil =>
      intro st bs2
      simp only [List.nil_append, walkList, hb st, wbind_ok]
      cases hq : walkList f st bs2 with
      | error e => simp [wbind, hq]
      | ok q => simp [wbind, hq]
  | cons a bs1 ih =>
      intro st bs2
      simp only [List.cons_append, walkList]
      cases hp : f st a with
      | error e => simp [wbind, hp]
      | ok p =>
          simp only [hp, wbind_ok, List.append_eq]
          rw [ih p.2 bs2]

/-- A list entry whose handler succeeds while emitting a single empty
entry and leaving the state unchanged can be removed from the walked
list without changing the flattened emission or the final state. -/
theorem walkList_skip_flat {α : Type}
    (f : ConvState → α → Except WalkError (List (List Xml) × ConvState)) (b : α)
    (hb : ∀ s, f s b = .ok ([[]], s)) :
    ∀ bs1 st bs2,
      (walkList f st (bs1 ++ b :: bs2)).map (fun r => (r.1.flatten, r.2)) =
      (walkList f st (bs1 ++ bs2)).map (fun r => (r.1.flatten, r.2)) := by
  intro bs1
  induction bs1 with
  | nil =>
      intro st bs2
      simp only [List.nil_append, walkList, hb st, wbind_ok]
      cases hq : walkList f st bs2 with
      | error e => simp [wbind, hq, Except.map]
      | ok q => simp [wbind, hq, Except.map]
  | cons a bs1 ih =>
      intro st bs2
      simp only [List.cons_append, walkList]
      cases hp : f st a with
      | error e => simp [wbind, hp]
      | ok p =>
          simp only [wbind, hp]
          cases hq1 : walkList f p.2 (bs1 ++ b :: bs2) with
          | error e =>
              have := ih p.2 bs2
              rw [hq1] at this
              cases hq2 : walkList f p.2 (bs1 ++ bs2) with
              | error e2 =>
                  rw [hq2] at this
                  simp only [Except.map] at this
                  cases this
                  simp [wbind, Except.map]
              | ok q2 =>
                  rw [hq2] at this
                  simp [Except.map] at this
          | ok q1 =>
              have := ih p.2 bs2
              rw [hq1] at this
              cases hq2 : walkList f p.2 (bs1 ++ bs2) with
              | error e2 =>
                  rw [hq2] at this
                  simp [Except.map] at this
              | ok q2 =>
                  rw [hq2] at this
                  simp only [Except.map, Except.ok.injEq] at this
                  simp only [wbind, Except.map, Except.ok.injEq]
                  obtain ⟨h1, h2⟩ := Prod.mk.injEq .. ▸ this
                  rw [List.flatten_append, List.flatten_append, h1, h2]

/-- A positive-fuel walk sends an unknown block to an empty emission
with unchanged state. -/
theorem walk_unknown (fuel : Nat) (hfuel : 0 < fuel) (s : ConvState) (tag : String) :
    walk fuel s (.block (.unknown tag)) = .ok ([], s) := by
  cases fuel with
  | zero => omega
  | succ n => rfl

/-- A positive-fuel walk sends a non-dict block to an empty emission
with unchanged state. -/
theorem walk_invalid (fuel : Nat) (hfuel : 0 < fuel) (s : ConvState) :
    walk fuel s (.block .invalid) = .ok ([], s) := by
  cases fuel with
  | zero => omega
  | succ n => rfl

/-- A positive-fuel walk sends a zero-row table to a single empty entry
(the empty string `_handle_table` returns) with unchanged state. -/
theorem walk_zero_row_table (fuel : Nat) (hfuel : 0 < fuel) (s : ConvState)
    (cs : Nat) (hrw fr : List TableRow) (bgs : List TableBody)
    (hrows : table_all_rows hrw bgs fr = []) :
    walk fuel s (.block (.table cs hrw bgs fr)) = .ok ([[]], s) := by
  cases fuel with
  | zero => omega
  | succ n =>
      show walk_step (walk n) (n + 1) s (.block (.table cs hrw bgs fr)) = .ok ([[]], s)
      simp only [walk_step, hrows]
      rfl

/-- Claim C8: an unknown-kind block and a non-dict block contribute
nothing and the remaining blocks are converted exactly as without them;
a zero-row table block likewise adds nothing to the flattened body
fragment and leaves the state as without it. -/
theorem c8_degenerate_blocks_skipped (fuel : Nat) (st : ConvState)
    (bs1 bs2 : List Block) (tag : String) (cs : Nat)
    (hrw fr : List TableRow) (bgs : List TableBody)
    (hfuel : 0 < fuel) (hrows : table_all_rows hrw bgs fr = []) :
    process_blocks fuel st (bs1 ++ .unknown tag :: bs2) =
      process_blocks fuel st (bs1 ++ bs2) ∧
    process_blocks fuel st (bs1 ++ .invalid :: bs2) =
      process_blocks fuel st (bs1 ++ bs2) ∧
    (process_blocks fuel st (bs1 ++ .table cs hrw bgs fr :: bs2)).map
        (fun r => (r.1.flatten, r.2)) =
      (process_blocks fuel st (bs1 ++ bs2)).map (fun r => (r.1.flatten, r.2)) := by
  refine ⟨?_, ?_, ?_⟩
  · exact walkList_skip (fun s bk => walk fuel s (.block bk)) (.unknown tag)
      (fun s => walk_unknown fuel hfuel s tag) bs1 st bs2
  · exact walkList_skip (fun s bk => walk fuel s (.block bk)) .invalid
      (fun s => walk_invalid fuel hfuel s) bs1 st bs2
  · exact walkList_skip_flat (fun s bk => walk fuel s (.block bk)) (.table cs hrw bgs fr)
      (fun s => walk_zero_row_table fuel hfuel s cs hrw fr bgs hrows) bs1 st bs2

/-- Witness for C8: with one unit of fuel, an unknown `Div` block placed
before a code block drops out of the conversion. -/
theorem c8_witness :
    0 < 1 ∧ table_all_rows [] [] [] = [] ∧
    process_blocks 1 demo_state ([] ++ .unknown "Div" :: [.codeBlock "x"]) =
      process_blocks 1 demo_state ([] ++ [.codeBlock "x"]) :=
  ⟨by decide, rfl,
    (c8_degenerate_blocks_skipped 1 demo_state [] [.codeBlock "x"] "Div" 1 [] [] []
      (by decide) rfl).1⟩

/-- `find?` looks no further than a prefix that already contains a
hit. -/
theorem find_append_left {α : Type} (p : α → Bool) (l1 l2 : List α)
    (h : (l1.find? p).isSome = true) : (l1 ++ l2).find? p = l1.find? p := by
  induction l1 with
  | nil => simp [List.find?] at h
  | cons a t ih =>
      cases hpa : p a with
      | true => simp [List.find?_cons, hpa]
      | false =>
          rw [List.find?_cons, hpa] at h
          simp only [List.cons_append, List.find?_cons, hpa]
          exact ih h

/-- Unit-step ranges concatenate. -/
theorem range1_append (s m n : Nat) :
    List.range' s m ++ List.range' (s + m) n = List.range' s (m + n) := by
  have h := List.range'_append s m n 1
  rw [Nat.one_mul] at h
  rw [Nat.add_comm m n]
  exact h

/-- Summing a constant 1 over a list counts its length. -/
theorem sum_ones {α : Type} (l : List α) : (l.map (fun _ => 1)).sum = l.length := by
  induction l with
  | nil => rfl
  | cons a t ih => simp [ih, Nat.add_comm]

/-- The emitted paragraph element records the paragraph-format id it was
built with. -/
theorem get_attr_make_para_ppr (sid pid cb : Nat) (ch : List Xml) :
    get_attr (make_para sid pid cb ch) "paraPrIDRef" = some (toString pid) := by
  with_unfolding_all rfl

/-- Exact allocation accounting for a `walkList` whose handler, on every
list element, extends the paragraph-format table by a fresh id range of
the element's size, keeps the normal id and the clone base, and emits
entries labelled by those fresh ids, in order. -/
theorem walkList_alloc {α : Type} (size : α → Nat)
    (h : ConvState → α → Except WalkError (List (List Xml) × ConvState)) :
    ∀ (l : List α),
    (∀ s a r, a ∈ l → h s a = .ok r → base_present s = true →
      pp_ids r.2 = pp_ids s ++ List.range' (s.max_para_pr_id + 1) (size a) ∧
      r.2.max_para_pr_id = s.max_para_pr_id + size a ∧
      r.2.normal_para_pr_id = s.normal_para_pr_id ∧
      base_present r.2 = true ∧
      para_attr_entries r.1 =
        (List.range' (s.max_para_pr_id + 1) (size a)).map
          (fun i => [some (toString i)])) →
    ∀ st r, walkList h st l = .ok r → base_present st = true →
      pp_ids r.2 = pp_ids st ++ List.range' (st.max_para_pr_id + 1) ((l.map size).sum) ∧
      r.2.max_para_pr_id = st.max_para_pr_id + (l.map size).sum ∧
      r.2.normal_para_pr_id = st.normal_para_pr_id ∧
      base_present r.2 = true ∧
      para_attr_entries r.1 =
        (List.range' (st.max_para_pr_id + 1) ((l.map size).sum)).map
          (fun i => [some (toString i)]) := by
  intro l
  induction l with
  | nil =>
      intro _ st r hr hb
      unfold walkList at hr
      cases hr
      simp [para_attr_entries, hb]
  | cons a rest ih =>
      intro H st r hr hb
      unfold walkList at hr
      cases hp : h st a with
      | error e => rw [hp] at hr; simp [wbind] at hr
      | ok p =>
          rw [hp, wbind_ok] at hr
          cases hq : walkList h p.2 rest with
          | error e => rw [hq] at hr; simp [wbind] at hr
          | ok q =>
              rw [hq, wbind_ok] at hr
              cases hr
              obtain ⟨hids1, hmax1, hnrm1, hbp1, hat1⟩ :=
                H st a p (List.mem_cons_self ..) hp hb
              obtain ⟨hids2, hmax2, hnrm2, hbp2, hat2⟩ :=
                ih (fun s a2 r2 hm => H s a2 r2 (List.mem_cons_of_mem _ hm)) p.2 q hq hbp1
              have hshift : p.2.max_para_pr_id + 1 = st.max_para_pr_id + 1 + size a := by
                omega
              refine ⟨?_, by simp [List.map_cons, List.sum_cons]; omega,
                by rw [hnrm2, hnrm1], hbp2, ?_⟩
              · rw [hids2, hids1, hmax1, List.append_assoc, List.map_cons, List.sum_cons]
                have : st.max_para_pr_id + size a + 1 =
                    st.max_para_pr_id + 1 + size a := by omega
                rw [this, range1_append]
              · show para_attr_entries (p.1 ++ q.1) = _
                unfold para_attr_entries at hat1 hat2 ⊢
                rw [List.map_append, hat1, hat2, hshift, ← List.map_append, range1_append,
                  List.map_cons, List.sum_cons]

/-- Component accounting of a `_get_list_para_pr` allocation when the
clone base exists: the returned id is the incremented maximum, the id
list gains exactly that id at the end, and the normal id and the clone
base lookup are untouched. -/
theorem get_list_para_pr_some (s : ConvState) (num level : Nat) (base : ParaPr)
    (hfind : s.para_prs.find? (fun p => p.id = s.normal_para_pr_id) = some base) :
    (get_list_para_pr s num level).2 = s.max_para_pr_id + 1 ∧
    (get_list_para_pr s num level).1.max_para_pr_id = s.max_para_pr_id + 1 ∧
    (get_list_para_pr s num level).1.normal_para_pr_id = s.normal_para_pr_id ∧
    pp_ids (get_list_para_pr s num level).1 = pp_ids s ++ [s.max_para_pr_id + 1] ∧
    (get_list_para_pr s num level).1.para_prs.find?
        (fun p => p.id = (get_list_para_pr s num level).1.normal_para_pr_id) =
      some base := by
  unfold get_list_para_pr
  rw [hfind]
  refine ⟨rfl, rfl, rfl, ?_, ?_⟩
  · simp [pp_ids]
  · exact (find_append_left _ _ _ (by rw [hfind]; rfl)).trans hfind

/-- One step of the list-item loop: a Para/Plain block clones the normal
paragraph format into a fresh id `max + 1`, appends it, and emits one
entry holding one paragraph labelled with that id. -/
theorem list_block_alloc
    (rec : ConvState → WalkTask → Except WalkError (List (List Xml) × ConvState))
    (ifuel num level : Nat) (s : ConvState) (blk : Block)
    (r : List (List Xml) × ConvState)
    (hflat : is_para_plain blk = true) (hb : base_present s = true)
    (hr : (let ra := get_list_para_pr s num level
           match blk with
           | .para inls =>
               wbind (process_inlines ifuel ra.1 0 ∅ inls) (fun r =>
                 .ok ([[make_para ra.1.normal_style_id ra.2 0 r.1]], r.2))
           | .plain inls =>
               wbind (process_inlines ifuel ra.1 0 ∅ inls) (fun r =>
                 .ok ([[make_para ra.1.normal_style_id ra.2 0 r.1]], r.2))
           | .bulletList inner => rec ra.1 (.bulletItems (level + 1) inner)
           | .orderedList s2 inner => rec ra.1 (.orderedItems (level + 1) s2 inner)
           | other => rec ra.1 (.block other)) = .ok r) :
    pp_ids r.2 = pp_ids s ++ List.range' (s.max_para_pr_id + 1) 1 ∧
    r.2.max_para_pr_id = s.max_para_pr_id + 1 ∧
    r.2.normal_para_pr_id = s.normal_para_pr_id ∧
    base_present r.2 = true ∧
    para_attr_entries r.1 =
      (List.range' (s.max_para_pr_id + 1) 1).map (fun i => [some (toString i)]) := by
  rw [base_present] at hb
  cases hfind : s.para_prs.find? (fun p => p.id = s.normal_para_pr_id) with
  | none => rw [hfind] at hb; simp at hb
  | some base =>
      obtain ⟨hg2, hgmax, hgnrm, hgids, hgfind⟩ :=
        get_list_para_pr_some s num level base hfind
      cases blk with
      | para inls =>
          replace hr : wbind
              (process_inlines ifuel (get_list_para_pr s num level).1 0 ∅ inls) (fun r =>
                .ok ([[make_para (get_list_para_pr s num level).1.normal_style_id
                        (get_list_para_pr s num level).2 0 r.1]], r.2)) = .ok r := hr
          cases hpi : process_inlines ifuel (get_list_para_pr s num level).1 0 ∅ inls with
          | error e => rw [hpi] at hr; simp [wbind] at hr
          | ok v =>
              rw [hpi, wbind_ok] at hr
              cases hr
              have hpure := process_inlines_pure ifuel _ 0 ∅ inls v hpi
              have hpp : v.2.para_prs = (get_list_para_pr s num level).1.para_prs :=
                congrArg (fun t => t.2.1) hpure
              have hmx : v.2.max_para_pr_id =
                  (get_list_para_pr s num level).1.max_para_pr_id :=
                congrArg (fun t => t.2.2.1) hpure
              have hnm : v.2.normal_para_pr_id =
                  (get_list_para_pr s num level).1.normal_para_pr_id :=
                congrArg (fun t => t.1.2.2.2.2.2.2.2) hpure
              refine ⟨?_, by rw [hmx, hgmax], by rw [hnm, hgnrm], ?_, ?_⟩
              · show pp_ids v.2 = _
                rw [pp_ids, hpp, ← pp_ids, hgids]
                simp [List.range']
              · rw [base_present, hnm, hpp, hgnrm]
                have : (get_list_para_pr s num level).1.para_prs.find?
                    (fun p => p.id = s.normal_para_pr_id) = some base := by
                  rw [← hgnrm]
                  exact hgfind
                rw [this]
                rfl
              · simp [para_attr_entries, get_attr_make_para_ppr, hg2, List.range']
      | plain inls =>
          replace hr : wbind
              (process_inlines ifuel (get_list_para_pr s num level).1 0 ∅ inls) (fun r =>
                .ok ([[make_para (get_list_para_pr s num level).1.normal_style_id
                        (get_list_para_pr s num level).2 0 r.1]], r.2)) = .ok r := hr
          cases hpi : process_inlines ifuel (get_list_para_pr s num level).1 0 ∅ inls with
          | error e => rw [hpi] at hr; simp [wbind] at hr
          | ok v =>
              rw [hpi, wbind_ok] at hr
              cases hr
              have hpure := process_inlines_pure ifuel _ 0 ∅ inls v hpi
              have hpp : v.2.para_prs = (get_list_para_pr s num level).1.para_prs :=
                congrArg (fun t => t.2.1) hpure
              have hmx : v.2.max_para_pr_id =
                  (get_list_para_pr s num level).1.max_para_pr_id :=
                congrArg (fun t => t.2.2.1) hpure
              have hnm : v.2.normal_para_pr_id =
                  (get_list_para_pr s num level).1.normal_para_pr_id :=
                congrArg (fun t => t.1.2.2.2.2.2.2.2) hpure
              refine ⟨?_, by rw [hmx, hgmax], by rw [hnm, hgnrm], ?_, ?_⟩
              · show pp_ids v.2 = _
                rw [pp_ids, hpp, ← pp_ids, hgids]
                simp [List.range']
              · rw [base_present, hnm, hpp, hgnrm]
                have : (get_list_para_pr s num level).1.para_prs.find?
                    (fun p => p.id = s.normal_para_pr_id) = some base := by
                  rw [← hgnrm]
                  exact hgfind
                rw [this]
                rfl
              · simp [para_attr_entries, get_attr_make_para_ppr, hg2, List.range']
      | codeBlock c => simp [is_para_plain] at hflat
      | header lv inls => simp [is_para_plain] at hflat
      | table a b c d => simp [is_para_plain] at hflat
      | bulletList inner => simp [is_para_plain] at hflat
      | orderedList s2 inner => simp [is_para_plain] at hflat
      | unknown tag => simp [is_para_plain] at hflat
      | invalid => simp [is_para_plain] at hflat

/-- Allocation accounting over the full two-level item loop of a list:
one fresh paragraph format per block of every item, in table order. -/
theorem list_items_alloc
    (rec : ConvState → WalkTask → Except WalkError (List (List Xml) × ConvState))
    (ifuel num level : Nat) (items : List (List Block))
    (hflat : ∀ item ∈ items, ∀ b ∈ item, is_para_plain b = true) :
    ∀ st r,
      walkList (fun st2 item => walkList (fun st3 blk =>
          let ra := get_list_para_pr st3 num level
          match blk with
          | .para inls =>
              wbind (process_inlines ifuel ra.1 0 ∅ inls) (fun r =>
                .ok ([[make_para ra.1.normal_style_id ra.2 0 r.1]], r.2))
          | .plain inls =>
              wbind (process_inlines ifuel ra.1 0 ∅ inls) (fun r =>
                .ok ([[make_para ra.1.normal_style_id ra.2 0 r.1]], r.2))
          | .bulletList inner => rec ra.1 (.bulletItems (level + 1) inner)
          | .orderedList s2 inner => rec ra.1 (.orderedItems (level + 1) s2 inner)
          | other => rec ra.1 (.block other)) st2 item) st items = .ok r →
      base_present st = true →
      pp_ids r.2 = pp_ids st ++
        List.range' (st.max_para_pr_id + 1) ((items.map List.length).sum) ∧
      r.2.max_para_pr_id = st.max_para_pr_id + (items.map List.length).sum ∧
      r.2.normal_para_pr_id = st.normal_para_pr_id ∧
      base_present r.2 = true ∧
      para_attr_entries r.1 =
        (List.range' (st.max_para_pr_id + 1) ((items.map List.length).sum)).map
          (fun i => [some (toString i)]) := by
  intro st r hw hb
  refine walkList_alloc List.length _ items (fun s a r2 hmem ha hbs => ?_) st r hw hb
  have hres := walkList_alloc (fun _ => 1) _ a
    (fun s3 b r3 hm3 hb3 hbs3 =>
      list_block_alloc rec ifuel num level s3 b r3 (hflat a hmem b hm3) hbs3 hb3)
    s r2 ha hbs
  rw [sum_ones] at hres
  exact hres

/-- Claim C10 (amended): in a bullet or ordered list whose item blocks
are all Para/Plain, every block allocates a fresh paragraph-format
record with id one above the running maximum and appends it, so the id
table gains exactly the id range `max+1 .. max+k` (one id per block, all
distinct) and the emitted paragraphs reference those fresh ids in order.
(One record is allocated per item *block*, not per Para/Plain item: a
nested-list block also consumes an id before recursing, so for nested
lists the table grows by more than one record per Para/Plain item.) -/
theorem c10_list_item_allocation
    (rec : ConvState → WalkTask → Except WalkError (List (List Xml) × ConvState))
    (ifuel level start : Nat) (st : ConvState) (items : List (List Block))
    (hflat : ∀ item ∈ items, ∀ b ∈ item, is_para_plain b = true)
    (hbase : base_present st = true) :
    (∀ r, walk_step rec ifuel st (.bulletItems level items) = .ok r →
      pp_ids r.2 = pp_ids st ++
        List.range' (st.max_para_pr_id + 1) ((items.map List.length).sum) ∧
      r.2.max_para_pr_id = st.max_para_pr_id + (items.map List.length).sum ∧
      para_attr_entries r.1 =
        (List.range' (st.max_para_pr_id + 1) ((items.map List.length).sum)).map
          (fun i => [some (toString i)])) ∧
    (∀ r, walk_step rec ifuel st (.orderedItems level start items) = .ok r →
      pp_ids r.2 = pp_ids st ++
        List.range' (st.max_para_pr_id + 1) ((items.map List.length).sum) ∧
      r.2.max_para_pr_id = st.max_para_pr_id + (items.map List.length).sum ∧
      para_attr_entries r.1 =
        (List.range' (st.max_para_pr_id + 1) ((items.map List.length).sum)).map
          (fun i => [some (toString i)])) := by
  constructor
  · intro r hr
    have h := list_items_alloc rec ifuel (create_numbering st "BULLET" 1).2 level items
      hflat (create_numbering st "BULLET" 1).1 r hr hbase
    exact ⟨h.1, h.2.1, h.2.2.2.2⟩
  · intro r hr
    have h := list_items_alloc rec ifuel (create_numbering st "ORDERED" start).2 level items
      hflat (create_numbering st "ORDERED" start).1 r hr hbase
    exact ⟨h.1, h.2.1, h.2.2.2.2⟩

/-- Counterexample to the per-Para/Plain-item reading: a two-item bullet
list whose second item is a nested list holds two Para/Plain items in
total, yet the paragraph-format table grows from one record to four —
the nested-list block itself consumes an allocation before recursing. -/
theorem c10_counterexample :
    (walk 2 demo_state (.bulletItems 0
        [[.para [.str "a"]], [.bulletList [[.plain [.str "b"]]]]])).map
      (fun r => pp_ids r.2) = .ok [1, 2, 3, 4] ∧
    para_plain_count 2 [[.para [.str "a"]], [.bulletList [[.plain [.str "b"]]]]] = 2 ∧
    pp_ids demo_state = [1] := by
  refine ⟨by with_unfolding_all rfl, by decide, by decide⟩

/-- Witness for C10 (amended): a flat two-item bullet list over the
demonstration state allocates exactly ids 2 and 3. -/
theorem c10_witness :
    (∀ item ∈ [[Block.para [Inline.str "x"]], [Block.plain [Inline.str "y"]]],
      ∀ b ∈ item, is_para_plain b = true) ∧
    base_present demo_state = true ∧
    (walk_step (walk 1) 2 demo_state (.bulletItems 0
        [[.para [.str "x"]], [.plain [.str "y"]]])).map (fun r => pp_ids r.2) =
      .ok (pp_ids demo_state ++ List.range' (demo_state.max_para_pr_id + 1)
        (([[Block.para [Inline.str "x"]], [Block.plain [Inline.str "y"]]].map
          List.length).sum)) := by
  refine ⟨by decide, by decide, ?_⟩
  cases hW : walk_step (walk 1) 2 demo_state (.bulletItems 0
      [[.para [.str "x"]], [.plain [.str "y"]]]) with
  | error e =>
      have hok : (walk_step (walk 1) 2 demo_state (.bulletItems 0
          [[.para [.str "x"]], [.plain [.str "y"]]])).map (fun r => pp_ids r.2) =
          .ok [1, 2, 3] := by with_unfolding_all rfl
      rw [hW] at hok
      simp [Except.map] at hok
  | ok r =>
      have h := (c10_list_item_allocation (walk 1) 2 0 1 demo_state
        [[.para [.str "x"]], [.plain [.str "y"]]] (by decide) (by decide)).1 r hW
      show Except.ok (pp_ids r.2) = _
      rw [h.1]
